import Mathlib

/-!
Verification of the gifts-bot listing-detection pipeline.

The TypeScript sources are shallowly embedded: JSON-like runtime values
become the inductive `Json`, JavaScript numbers become `Option ℚ` (`none`
models the non-finite values NaN and ±Infinity, `some q` a finite double,
with arithmetic taken exactly), stateful caches become explicit state
threaded through the functions, and network calls become oracle functions
passed as parameters (`none` models a failed fetch).  Each definition keeps
the name and the control flow of the source function it embeds.
-/

/-- A JSON-like runtime value as handled by the pipeline: `jnum none`
models a non-finite JavaScript number (NaN or ±Infinity). -/
inductive Json where
  | jnull : Json
  | jbool : Bool → Json
  | jnum : Option ℚ → Json
  | jstr : String → Json
  | jarr : List Json → Json
  | jobj : List (String × Json) → Json

/-- JavaScript truthiness of a value (`!v` is its negation). -/
def jsTruthy : Json → Bool
  | Json.jnull => false
  | Json.jbool b => b
  | Json.jnum none => false
  | Json.jnum (some q) => q != 0
  | Json.jstr s => s != ""
  | Json.jarr _ => true
  | Json.jobj _ => true

/-- Whether `typeof v` is the string "object" (true for objects, arrays and
null). -/
def jsTypeofObject : Json → Bool
  | Json.jnull => true
  | Json.jarr _ => true
  | Json.jobj _ => true
  | _ => false

/-- Property read `v[k]`: `none` models the JavaScript `undefined`.  Only
plain objects carry the properties the pipeline reads. -/
def jget : Json → String → Option Json
  | Json.jobj fs, k => (fs.find? (fun e => e.1 == k)).map (fun e => e.2)
  | _, _ => none

/-- Whether an optional value is nullish (`undefined` or `null`), as tested
by the `??` operator. -/
def jnullish : Option Json → Bool
  | none => true
  | some Json.jnull => true
  | _ => false

/-- Truthiness of a `string | undefined` value (`undefined` and the empty
string are falsy). -/
def strTruthy : Option String → Bool
  | none => false
  | some s => s != ""

/-- List prefix test by `==`, used to model `String.prototype.startsWith`. -/
def isPrefixB : List Char → List Char → Bool
  | [], _ => true
  | _ :: _, [] => false
  | a :: as, b :: bs => a == b && isPrefixB as bs

/-- Substring membership on character lists. -/
def isInfixB : List Char → List Char → Bool
  | pat, [] => pat.isEmpty
  | pat, l@(_ :: rest) => isPrefixB pat l || isInfixB pat rest

/-- `s.includes(pat)`: substring containment. -/
def strIncludes (s pat : String) : Bool :=
  isInfixB pat.toList s.toList

/-- `s.startsWith(pat)`. -/
def strStartsWith (s pat : String) : Bool :=
  isPrefixB pat.toList s.toList

/-- `s.toLowerCase()`, character by character. -/
def strToLower (s : String) : String :=
  String.mk (s.toList.map Char.toLower)

/-- JavaScript whitespace as trimmed by `String.prototype.trim`. -/
def jsWhitespace (c : Char) : Bool :=
  c = ' ' ∨ c = '\t' ∨ c = '\n' ∨ c = '\r' ∨ c = '\x0b' ∨ c = '\x0c'

/-- `s.trim()`: whitespace removed from both ends. -/
def strTrim (s : String) : String :=
  String.mk (((s.toList.dropWhile jsWhitespace).reverse.dropWhile jsWhitespace).reverse)

/-! ## Markdown escaping (alert formatter) -/

/-- The reserved characters of the regular expression character class in
`escapeMarkdownV2`. -/
def mdReserved : List Char :=
  "_-*[]()~\x60>#+=|\x7b\x7d.!\\".toList

/-- One step of the global replacement: a reserved character gains a single
backslash in front, any other character is kept. -/
def escChar (c : Char) : List Char :=
  if mdReserved.contains c then ['\\', c] else [c]

/-- Embeds `escapeMarkdownV2`: every occurrence of a reserved character is
replaced by a backslash followed by that character. -/
def escapeMarkdownV2 (s : String) : String :=
  String.mk (s.toList.flatMap escChar)

/-- Embeds `escapeMarkdownV2Url`: only `)` and `\` are escaped in URL
context. -/
def escapeMarkdownV2Url (s : String) : String :=
  String.mk (s.toList.flatMap (fun c => if c = ')' ∨ c = '\\' then ['\\', c] else [c]))

/-- Removes the one escape backslash standing before every reserved
character, the structural inverse the specification describes. -/
def stripEscapes : List Char → List Char
  | [] => []
  | c :: rest =>
    if c = '\\' then
      match rest with
      | [] => ['\\']
      | d :: rest2 =>
        if mdReserved.contains d then d :: stripEscapes rest2
        else '\\' :: stripEscapes (d :: rest2)
    else c :: stripEscapes rest

/-- String form of `stripEscapes`. -/
def stripEscapesStr (s : String) : String :=
  String.mk (stripEscapes s.toList)

/-! ## Dedup cache (seen-event map) -/

/-- The `seen` map: event hash to first-seen timestamp, in insertion
order, as a JavaScript `Map` iterates. -/
abbrev SeenMap := List (String × ℕ)

/-- `SEEN_TTL_MS`: ten minutes. -/
def SEEN_TTL_MS : ℕ := 10 * 60 * 1000

/-- `SEEN_MAX`: the capacity of the seen-event map. -/
def SEEN_MAX : ℕ := 10000

/-- The TTL pass of `cleanupSeen`: entries older than the TTL are
deleted. -/
def seenTtlFilter (now : ℕ) (m : SeenMap) : SeenMap :=
  m.filter (fun e => !(decide (SEEN_TTL_MS < now - e.2)))

/-- Embeds `cleanupSeen`: delete entries older than the TTL, then, if the
map is still over capacity, delete the oldest-inserted entries until the
size is back at the capacity. -/
def cleanupSeen (now : ℕ) (m : SeenMap) : SeenMap :=
  let m1 := seenTtlFilter now m
  if m1.length ≤ SEEN_MAX then m1
  else m1.drop (m1.length - SEEN_MAX)

/-- Key membership in the seen map (`seen.has`). -/
def seenHas (m : SeenMap) (h : String) : Bool :=
  m.any (fun e => e.1 == h)

/-- The dedup gate of `handleTrace` on one delivery `(hash, now)`: sweep,
then check-and-mark.  The returned flag is true when the hash was unseen
and processing continues, false when the delivery is dropped. -/
def dedupStep (m : SeenMap) (d : String × ℕ) : Bool × SeenMap :=
  let m1 := cleanupSeen d.2 m
  if seenHas m1 d.1 then (false, m1)
  else (true, m1 ++ [(d.1, d.2)])

/-- Runs the dedup gate over a delivery sequence, returning the
processed/dropped flag of every delivery in order. -/
def dedupRun : SeenMap → List (String × ℕ) → List Bool
  | _, [] => []
  | m, d :: ds =>
    let r := dedupStep m d
    r.1 :: dedupRun r.2 ds

/-- Within-window condition for a hash along a run: at every delivery, if
the hash is in the map before the inline sweep then it is still there after
it — the hash neither ages out of the TTL nor is capacity-evicted during
the run. -/
def survivesRun (h : String) : SeenMap → List (String × ℕ) → Bool
  | _, [] => true
  | m, d :: ds =>
    (!(seenHas m h) || seenHas (cleanupSeen d.2 m) h)
      && survivesRun h (dedupStep m d).2 ds

/-- The processed/dropped flags of the deliveries of one hash, in order. -/
def flagsFor (h : String) (m : SeenMap) (ds : List (String × ℕ)) : List Bool :=
  ((ds.zip (dedupRun m ds)).filter (fun p => p.1.1 == h)).map (fun p => p.2)

/-! ## Amount normalization (`toTon`, `toTonMaybe`) -/

/-- Value of a digit run, most significant first. -/
def digitsToNat (cs : List Char) : ℕ :=
  cs.foldl (fun a c => a * 10 + (c.toNat - 48)) 0

/-- The digits of a decimal exponent part after `e`/`E` (empty or
non-digits fail, as `Number` does). -/
def parseExpDigits (ds : List Char) : Option ℤ :=
  if ds.isEmpty then none
  else if ds.all Char.isDigit then some (digitsToNat ds) else none

/-- The optional exponent of a decimal literal: empty means exponent 0,
anything else must be `e`/`E`, an optional sign and digits. -/
def parseExpPart : List Char → Option ℤ
  | [] => some 0
  | c :: rest =>
    if c = 'e' ∨ c = 'E' then
      match rest with
      | '+' :: ds => parseExpDigits ds
      | '-' :: ds => (parseExpDigits ds).map Int.neg
      | ds => parseExpDigits ds
    else none

/-- An unsigned decimal literal `digits [. digits] [exp]` or
`. digits [exp]` (at least one digit), evaluated exactly. -/
def parseUnsigned (cs : List Char) : Option ℚ :=
  let intPart := cs.takeWhile Char.isDigit
  let rest := cs.dropWhile Char.isDigit
  match rest with
  | '.' :: rest2 =>
    let fracPart := rest2.takeWhile Char.isDigit
    let rest3 := rest2.dropWhile Char.isDigit
    if intPart.isEmpty && fracPart.isEmpty then none
    else
      (parseExpPart rest3).map (fun e =>
        ((digitsToNat intPart : ℚ)
            + (digitsToNat fracPart : ℚ) / 10 ^ fracPart.length) * (10 : ℚ) ^ e)
  | _ =>
    if intPart.isEmpty then none
    else (parseExpPart rest).map (fun e => (digitsToNat intPart : ℚ) * (10 : ℚ) ^ e)

/-- Models `Number(s)` restricted to what the pipeline feeds it: trimmed
decimal literals with optional sign, fraction and exponent; the empty or
all-whitespace string is 0; anything else (including the non-finite
spellings, which the callers discard anyway) is `none`. -/
def strToNum (s : String) : Option ℚ :=
  let t := strTrim s
  if t = "" then some 0
  else
    match t.toList with
    | '+' :: rest => parseUnsigned rest
    | '-' :: rest => (parseUnsigned rest).map Neg.neg
    | cs => parseUnsigned cs

/-- The auto-scale step shared by `toTon` and `toTonMaybe`: a value above
1,000,000 is taken to be nanoton and divided by 1e9. -/
def scaleTon (q : ℚ) : ℚ :=
  if 1000000 < q then q / 1000000000 else q

/-- `toTon` on a primitive (number or string) value. -/
def toTonPrim : Json → Option ℚ
  | Json.jnum none => none
  | Json.jnum (some q) => some (scaleTon q)
  | Json.jstr s => (strToNum s).map scaleTon
  | _ => none

/-- Embeds `toTon`: finite numbers and numeric strings are auto-scaled;
a truthy object with a string or number `value` property is unwrapped one
level (the source's recursive call, inlined since `value` is then primitive);
everything else is `undefined`. -/
def toTon (v : Json) : Option ℚ :=
  match v with
  | Json.jnum _ => toTonPrim v
  | Json.jstr _ => toTonPrim v
  | _ =>
    if jsTruthy v && jsTypeofObject v then
      match jget v "value" with
      | some (Json.jstr s) => toTonPrim (Json.jstr s)
      | some (Json.jnum x) => toTonPrim (Json.jnum x)
      | _ => none
    else none

/-- Embeds `toTonMaybe` on the finite numbers (the source returns a
non-finite argument unchanged, which `Option ℚ = none` callers never reach):
the same auto-scale heuristic. -/
def toTonMaybe (v : ℚ) : ℚ :=
  if 1000000 < v then v / 1000000000 else v

/-! ## Payload extractor -/

/-- First non-nullish of two optional values (the `??` operator on two
property reads). -/
def nullishChain2 (a b : Option Json) : Option Json :=
  if jnullish a then b else a

/-- The direct-key pass of `findFirstStringByKeys`: the first candidate key
whose own value on this object is a string. -/
def firstDirectString (fs : List (String × Json)) : List String → Option String
  | [] => none
  | k :: ks =>
    match jget (Json.jobj fs) k with
    | some (Json.jstr s) => some s
    | _ => firstDirectString fs ks

mutual
/-- Embeds `findFirstStringByKeys`: depth-first search that checks the
candidate keys on the current object before descending into array elements
and object values in natural order.  A result found below is propagated
through the JavaScript truthiness test, so an empty string found in a child
is discarded and the search continues. -/
def findFirstStringByKeys : Json → List String → Option String
  | Json.jarr xs, keys => ffsList xs keys
  | Json.jobj fs, keys =>
    match firstDirectString fs keys with
    | some s => some s
    | none => ffsFields fs keys
  | _, _ => none

/-- `findFirstStringByKeys` over the elements of an array. -/
def ffsList : List Json → List String → Option String
  | [], _ => none
  | v :: vs, keys =>
    let found := findFirstStringByKeys v keys
    if strTruthy found then found else ffsList vs keys

/-- `findFirstStringByKeys` over the values of an object. -/
def ffsFields : List (String × Json) → List String → Option String
  | [], _ => none
  | (_, v) :: fs, keys =>
    let found := findFirstStringByKeys v keys
    if strTruthy found then found else ffsFields fs keys
end

/-- The direct-key pass of `findFirstNumberLike`: the first candidate key
present on this object whose value `toTon` accepts. -/
def firstDirectNumber (fs : List (String × Json)) : List String → Option ℚ
  | [] => none
  | k :: ks =>
    match jget (Json.jobj fs) k with
    | some v =>
      match toTon v with
      | some t => some t
      | none => firstDirectNumber fs ks
    | none => firstDirectNumber fs ks

mutual
/-- Embeds `findFirstNumberLike`: like the string search but through
`toTon`, and a found value is compared against `undefined` (not
truthiness), so 0 is a valid result. -/
def findFirstNumberLike : Json → List String → Option ℚ
  | Json.jarr xs, keys => ffnList xs keys
  | Json.jobj fs, keys =>
    match firstDirectNumber fs keys with
    | some t => some t
    | none => ffnFields fs keys
  | _, _ => none

/-- `findFirstNumberLike` over the elements of an array. -/
def ffnList : List Json → List String → Option ℚ
  | [], _ => none
  | v :: vs, keys =>
    match findFirstNumberLike v keys with
    | some t => some t
    | none => ffnList vs keys

/-- `findFirstNumberLike` over the values of an object. -/
def ffnFields : List (String × Json) → List String → Option ℚ
  | [], _ => none
  | (_, v) :: fs, keys =>
    match findFirstNumberLike v keys with
    | some t => some t
    | none => ffnFields fs keys
end

/-- Embeds `isTonAddress`: raw `workchain:hex` form or one of the
recognized human-readable prefixes. -/
def isTonAddress : Json → Bool
  | Json.jstr s =>
    strStartsWith s "0:" || strStartsWith s "-1:"
      || strStartsWith s "EQ" || strStartsWith s "UQ" || strStartsWith s "kQ"
  | _ => false

/-- An address-shaped string sitting directly under key `k` of `v`. -/
def addrField (v : Json) (k : String) : Option String :=
  match jget v k with
  | some (Json.jstr s) => if isTonAddress (Json.jstr s) then some s else none
  | _ => none

/-- Embeds `extractAddressFromNode`: a string node must itself look like an
address; an object node is unwrapped through its `address`, `account_id` or
`owner` property. -/
def extractAddressFromNode (node : Json) : Option String :=
  if !(jsTruthy node) then none
  else
    match node with
    | Json.jstr s => if isTonAddress (Json.jstr s) then some s else none
    | v =>
      if !(jsTypeofObject v) then none
      else
        match addrField v "address" with
        | some s => some s
        | none =>
          match addrField v "account_id" with
          | some s => some s
          | none => addrField v "owner"

/-- The direct-key pass of `findFirstAddressByKeys`: the first candidate
key present on this object whose value unwraps to a truthy address. -/
def firstDirectAddress (fs : List (String × Json)) : List String → Option String
  | [] => none
  | k :: ks =>
    match jget (Json.jobj fs) k with
    | some v =>
      let addr := extractAddressFromNode v
      if strTruthy addr then addr else firstDirectAddress fs ks
    | none => firstDirectAddress fs ks

mutual
/-- Embeds `findFirstAddressByKeys`: like the string search but through
`extractAddressFromNode`, with the same truthiness propagation. -/
def findFirstAddressByKeys : Json → List String → Option String
  | Json.jarr xs, keys => ffaList xs keys
  | Json.jobj fs, keys =>
    match firstDirectAddress fs keys with
    | some a => some a
    | none => ffaFields fs keys
  | _, _ => none

/-- `findFirstAddressByKeys` over the elements of an array. -/
def ffaList : List Json → List String → Option String
  | [], _ => none
  | v :: vs, keys =>
    let found := findFirstAddressByKeys v keys
    if strTruthy found then found else ffaList vs keys

/-- `findFirstAddressByKeys` over the values of an object. -/
def ffaFields : List (String × Json) → List String → Option String
  | [], _ => none
  | (_, v) :: fs, keys =>
    let found := findFirstAddressByKeys v keys
    if strTruthy found then found else ffaFields fs keys
end

mutual
/-- Embeds `findAllStringsByKey`: collects, in depth-first document order,
every string value sitting under the given key anywhere in the tree (the
`out` accumulator of the source becomes the returned list). -/
def findAllStringsByKey : Json → String → List String
  | Json.jarr xs, key => allStrsList xs key
  | Json.jobj fs, key => allStrsFields fs key
  | _, _ => []

/-- `findAllStringsByKey` over the elements of an array. -/
def allStrsList : List Json → String → List String
  | [], _ => []
  | v :: vs, key => findAllStringsByKey v key ++ allStrsList vs key

/-- `findAllStringsByKey` over the fields of an object: a matching string
field is collected and then the value is descended into regardless. -/
def allStrsFields : List (String × Json) → String → List String
  | [], _ => []
  | (k, v) :: fs, key =>
    (if k = key then
        (match v with
         | Json.jstr s => [s]
         | _ => [])
      else [])
      ++ findAllStringsByKey v key ++ allStrsFields fs key
end

/-! ## NFT metadata extraction and the per-asset model cache -/

/-- Embeds `normalizeImageUrl`: an `ipfs://` URI (with an optional extra
`ipfs/` path prefix) is rewritten to the Cloudflare gateway. -/
def normalizeImageUrl (url : String) : String :=
  let u := strTrim url
  if u = "" then u
  else if strStartsWith (strToLower u) "ipfs://" then
    let cid0 := String.mk (u.toList.drop 7)
    let cid :=
      if strStartsWith (strToLower cid0) "ipfs/" then String.mk (cid0.toList.drop 5)
      else cid0
    "https://cloudflare-ipfs.com/ipfs/" ++ cid
  else u

/-- String form of a JavaScript number, used for `String(obj.index)`;
the indices the pipeline meets are integers. -/
def jsNumToString (x : Option ℚ) : String :=
  match x with
  | none => "NaN"
  | some q =>
    if q.den = 1 then
      (if q.num < 0 then "-" ++ toString q.num.natAbs else toString q.num.natAbs)
    else toString q.num.natAbs ++ "/" ++ toString q.den

/-- What `extractFromNftItem` recovers from an NFT-item payload. -/
structure NftExtract where
  model : Option String := none
  background : Option String := none
  number : Option String := none
  collectionAddress : Option String := none
  imageUrl : Option String := none
deriving DecidableEq

/-- One pass of the attributes loop of `extractFromNftItem` over the
accumulated `(model, background)` pair: JavaScript truthiness on the
already-set field, string trait names via the `trait_type ?? key ?? type`
chain, values via `value ?? val`. -/
def applyAttr (acc : Option String × Option String) (a : Json) :
    Option String × Option String :=
  if !(jsTruthy a && jsTypeofObject a) then acc
  else
    let trait := nullishChain2 (jget a "trait_type")
      (nullishChain2 (jget a "key") (jget a "type"))
    let value := nullishChain2 (jget a "value") (jget a "val")
    match trait with
    | some (Json.jstr t0) =>
      let t := strToLower t0
      let m1 :=
        if !(strTruthy acc.1) then
          match value with
          | some (Json.jstr v) =>
            if t = "model" ∨ strIncludes t "model" then some v else acc.1
          | _ => acc.1
        else acc.1
      let b1 :=
        if !(strTruthy acc.2) then
          match value with
          | some (Json.jstr v) =>
            if t = "background" ∨ strIncludes t "background" then some v else acc.2
          | _ => acc.2
        else acc.2
      (m1, b1)
    | _ => acc

/-- The attributes loop of `extractFromNftItem`. -/
def foldAttrs : List Json → Option String × Option String →
    Option String × Option String
  | [], acc => acc
  | a :: rest, acc => foldAttrs rest (applyAttr acc a)

/-- Embeds `extractFromNftItem` (`none` models the `null` a failed fetch
returns): collection address, serial number from `index`/`item_index`,
model and image from `metadata ?? content` (name, prioritized image keys,
attributes loop), and a previews fallback for the image. -/
def extractFromNftItem (nft : Option Json) : NftExtract :=
  match nft with
  | none => {}
  | some n =>
    if !(jsTruthy n && jsTypeofObject n) then {}
    else
      let collectionAddress :=
        match jget n "collection" with
        | some c =>
          if jsTruthy c then
            match jget c "address" with
            | some (Json.jstr s) => some s
            | _ => none
          else none
        | none => none
      let number0 : Option String :=
        match jget n "index" with
        | some (Json.jnum x) => some (jsNumToString x)
        | _ => none
      let number1 :=
        match jget n "item_index" with
        | some (Json.jnum x) => some (jsNumToString x)
        | _ => number0
      let number :=
        match jget n "item_index" with
        | some (Json.jstr s) => some s
        | _ => number1
      let metadata := nullishChain2 (jget n "metadata") (jget n "content")
      let mbi :=
        match metadata with
        | some mobj =>
          if jsTruthy mobj && jsTypeofObject mobj then
            let model0 : Option String :=
              match jget mobj "name" with
              | some (Json.jstr s) => some s
              | _ => none
            let imageUrl0 : Option String :=
              match findFirstStringByKeys mobj ["image", "image_url", "imageUrl"] with
              | some s => if 0 < s.length then some (normalizeImageUrl s) else none
              | none => none
            let mb :=
              match jget mobj "attributes" with
              | some (Json.jarr attrs) => foldAttrs attrs (model0, none)
              | _ => (model0, none)
            (mb.1, mb.2, imageUrl0)
          else (none, none, none)
        | none => (none, none, none)
      let imageUrl :=
        if strTruthy mbi.2.2 then mbi.2.2
        else
          match jget n "previews" with
          | some (Json.jarr ps) =>
            if 0 < ps.length then
              match ps.getLast? with
              | some lastp =>
                if jsTruthy lastp && jsTypeofObject lastp then
                  match jget lastp "url" with
                  | some (Json.jstr u) => if 0 < u.length then some (normalizeImageUrl u) else none
                  | _ => none
                else none
              | none => none
            else none
          | _ => none
      { model := mbi.1, background := mbi.2.1, number := number,
        collectionAddress := collectionAddress, imageUrl := imageUrl }

/-- One entry of the per-asset model cache: fetch timestamp and resolved
model name or its absence. -/
structure ModelEntry where
  atTime : ℕ
  model : Option String
deriving DecidableEq

/-- The `nftModelCache` map in insertion order. -/
abbrev ModelCache := List (String × ModelEntry)

/-- `NFT_MODEL_CACHE_TTL_MS`: ten minutes. -/
def NFT_MODEL_CACHE_TTL_MS : ℕ := 10 * 60 * 1000

/-- `Map.get` on the model cache. -/
def cacheGet (c : ModelCache) (k : String) : Option ModelEntry :=
  (c.find? (fun e => e.1 == k)).map (fun e => e.2)

/-- `Map.set` on the model cache: updates in place, or appends in
insertion order. -/
def cacheSet (c : ModelCache) (k : String) (v : ModelEntry) : ModelCache :=
  if (c.find? (fun e => e.1 == k)).isSome then
    c.map (fun e => if e.1 == k then (k, v) else e)
  else c ++ [(k, v)]

/-- Embeds `getModelByNftAddressCached`: a fresh cache entry answers
directly; otherwise the lookup oracle is consulted, the model extracted,
and the result — including the absence of a model, whatever the reason —
is written to the cache. -/
def getModelByNftAddressCached (fetchNft : String → Option Json) (now : ℕ)
    (cache : ModelCache) (nftAddress : String) : Option String × ModelCache :=
  match cacheGet cache nftAddress with
  | some e =>
    if now - e.atTime < NFT_MODEL_CACHE_TTL_MS then (e.model, cache)
    else
      let model := (extractFromNftItem (fetchNft nftAddress)).model
      (model, cacheSet cache nftAddress { atTime := now, model := model })
  | none =>
    let model := (extractFromNftItem (fetchNft nftAddress)).model
    (model, cacheSet cache nftAddress { atTime := now, model := model })

/-! ## Fuel-counted extractor evaluation (termination of the searches)

The searches above are total Lean functions; to state termination as a
theorem, each search also gets a step-counted evaluator that spends one
unit of fuel on every call and answers `none` when the fuel runs out.  The
agreement theorems show that fuel equal to the size of the input always
suffices, on input trees of every shape. -/

mutual
/-- Size of a `Json` tree, counting every node and list spine cell. -/
def sizeJ : Json → ℕ
  | Json.jarr xs => 1 + sizeL xs
  | Json.jobj fs => 1 + sizeF fs
  | _ => 1

/-- Size of an array segment. -/
def sizeL : List Json → ℕ
  | [] => 1
  | v :: vs => 1 + sizeJ v + sizeL vs

/-- Size of an object-field segment. -/
def sizeF : List (String × Json) → ℕ
  | [] => 1
  | (_, v) :: fs => 1 + sizeJ v + sizeF fs
end

mutual
/-- Fuel-counted `findFirstStringByKeys`. -/
def findFirstStringByKeysF : ℕ → Json → List String → Option (Option String)
  | 0, _, _ => none
  | Nat.succ fuel, Json.jarr xs, keys => ffsListF fuel xs keys
  | Nat.succ fuel, Json.jobj fs, keys =>
    match firstDirectString fs keys with
    | some s => some (some s)
    | none => ffsFieldsF fuel fs keys
  | Nat.succ _, _, _ => some none

/-- Fuel-counted `ffsList`. -/
def ffsListF : ℕ → List Json → List String → Option (Option String)
  | 0, _, _ => none
  | Nat.succ _, [], _ => some none
  | Nat.succ fuel, v :: vs, keys =>
    match findFirstStringByKeysF fuel v keys with
    | none => none
    | some found => if strTruthy found then some found else ffsListF fuel vs keys

/-- Fuel-counted `ffsFields`. -/
def ffsFieldsF : ℕ → List (String × Json) → List String → Option (Option String)
  | 0, _, _ => none
  | Nat.succ _, [], _ => some none
  | Nat.succ fuel, (_, v) :: fs, keys =>
    match findFirstStringByKeysF fuel v keys with
    | none => none
    | some found => if strTruthy found then some found else ffsFieldsF fuel fs keys
end

mutual
/-- Fuel-counted `findFirstNumberLike`. -/
def findFirstNumberLikeF : ℕ → Json → List String → Option (Option ℚ)
  | 0, _, _ => none
  | Nat.succ fuel, Json.jarr xs, keys => ffnListF fuel xs keys
  | Nat.succ fuel, Json.jobj fs, keys =>
    match firstDirectNumber fs keys with
    | some t => some (some t)
    | none => ffnFieldsF fuel fs keys
  | Nat.succ _, _, _ => some none

/-- Fuel-counted `ffnList`. -/
def ffnListF : ℕ → List Json → List String → Option (Option ℚ)
  | 0, _, _ => none
  | Nat.succ _, [], _ => some none
  | Nat.succ fuel, v :: vs, keys =>
    match findFirstNumberLikeF fuel v keys with
    | none => none
    | some (some t) => some (some t)
    | some none => ffnListF fuel vs keys

/-- Fuel-counted `ffnFields`. -/
def ffnFieldsF : ℕ → List (String × Json) → List String → Option (Option ℚ)
  | 0, _, _ => none
  | Nat.succ _, [], _ => some none
  | Nat.succ fuel, (_, v) :: fs, keys =>
    match findFirstNumberLikeF fuel v keys with
    | none => none
    | some (some t) => some (some t)
    | some none => ffnFieldsF fuel fs keys
end

mutual
/-- Fuel-counted `findFirstAddressByKeys`. -/
def findFirstAddressByKeysF : ℕ → Json → List String → Option (Option String)
  | 0, _, _ => none
  | Nat.succ fuel, Json.jarr xs, keys => ffaListF fuel xs keys
  | Nat.succ fuel, Json.jobj fs, keys =>
    match firstDirectAddress fs keys with
    | some a => some (some a)
    | none => ffaFieldsF fuel fs keys
  | Nat.succ _, _, _ => some none

/-- Fuel-counted `ffaList`. -/
def ffaListF : ℕ → List Json → List String → Option (Option String)
  | 0, _, _ => none
  | Nat.succ _, [], _ => some none
  | Nat.succ fuel, v :: vs, keys =>
    match findFirstAddressByKeysF fuel v keys with
    | none => none
    | some found => if strTruthy found then some found else ffaListF fuel vs keys

/-- Fuel-counted `ffaFields`. -/
def ffaFieldsF : ℕ → List (String × Json) → List String → Option (Option String)
  | 0, _, _ => none
  | Nat.succ _, [], _ => some none
  | Nat.succ fuel, (_, v) :: fs, keys =>
    match findFirstAddressByKeysF fuel v keys with
    | none => none
    | some found => if strTruthy found then some found else ffaFieldsF fuel fs keys
end

mutual
/-- Fuel-counted `findAllStringsByKey`. -/
def findAllStringsByKeyF : ℕ → Json → String → Option (List String)
  | 0, _, _ => none
  | Nat.succ fuel, Json.jarr xs, key => allStrsListF fuel xs key
  | Nat.succ fuel, Json.jobj fs, key => allStrsFieldsF fuel fs key
  | Nat.succ _, _, _ => some []

/-- Fuel-counted `allStrsList`. -/
def allStrsListF : ℕ → List Json → String → Option (List String)
  | 0, _, _ => none
  | Nat.succ _, [], _ => some []
  | Nat.succ fuel, v :: vs, key =>
    match findAllStringsByKeyF fuel v key with
    | none => none
    | some a =>
      match allStrsListF fuel vs key with
      | none => none
      | some b => some (a ++ b)

/-- Fuel-counted `allStrsFields`. -/
def allStrsFieldsF : ℕ → List (String × Json) → String → Option (List String)
  | 0, _, _ => none
  | Nat.succ _, [], _ => some []
  | Nat.succ fuel, (k, v) :: fs, key =>
    match findAllStringsByKeyF fuel v key with
    | none => none
    | some a =>
      match allStrsFieldsF fuel fs key with
      | none => none
      | some b =>
        some ((if k = key then
                (match v with
                 | Json.jstr s => [s]
                 | _ => [])
              else []) ++ a ++ b)
end

/-! ## Preference matcher (`matchesFilters`) -/

/-- The mode selector of a Filters record. -/
inductive Tab where
  | listing
  | sale
  | rent
deriving DecidableEq

/-- A stored Filters record.  The bound fields are JavaScript numbers:
`none` models a non-finite bound (NaN or ±Infinity). -/
structure Filters where
  tab : Tab
  minTon : Option ℚ
  maxTon : Option ℚ
  models : List String

/-- The optional `priceTon` field of a Listing: missing, a non-finite
number, or a finite number. -/
inductive PriceTon where
  | absent
  | nonfinite
  | fin : ℚ → PriceTon

/-- A candidate marketplace offer recovered from one event action. -/
structure Listing where
  nftAddress : String
  priceTon : PriceTon := PriceTon.absent
  marketAccount : Option String := none
  marketLabel : String
  model : Option String := none
  background : Option String := none
  number : Option String := none
  collectionAddress : Option String := none
  imageUrl : Option String := none

/-- Embeds `matchesFilters`: absent filters match everything; otherwise
mode must be "listing", the price must be a finite number, each finite
bound is enforced (a non-finite bound is skipped by the
`Number.isFinite` guard), and a non-empty model set requires a truthy
listing model whose lowercase form is in the lowered set. -/
def matchesFilters (listing : Listing) (filters : Option Filters) : Bool :=
  match filters with
  | none => true
  | some f =>
    if f.tab ≠ Tab.listing then false
    else
      match listing.priceTon with
      | PriceTon.fin price =>
        if (match f.minTon with
            | some mn => decide (price < mn)
            | none => false) then false
        else if (match f.maxTon with
            | some mx => decide (mx < price)
            | none => false) then false
        else if 0 < f.models.length then
          match listing.model with
          | none => false
          | some md =>
            if md = "" then false
            else (f.models.map strToLower).contains (strToLower md)
        else true
      | _ => false

/-- The preference-match predicate exactly as claim C1 words it, with
JavaScript comparison semantics on the bounds (a comparison against a
non-finite bound is false). -/
def matchesFiltersClaim (l : Listing) (filters : Option Filters) : Bool :=
  match filters with
  | none => true
  | some f =>
    decide (f.tab = Tab.listing)
      && (match l.priceTon with
          | PriceTon.fin p =>
            (match f.minTon with
             | some mn => decide (mn ≤ p)
             | none => false)
              && (match f.maxTon with
                  | some mx => decide (p ≤ mx)
                  | none => false)
          | _ => false)
      && (f.models.isEmpty
          || (match l.model with
              | some md => (f.models.map strToLower).contains (strToLower md)
              | none => false))

/-- The amended preference-match predicate: as the claim, except that a
non-finite bound is treated as no bound at all and the listing model must
additionally be non-empty (the source tests the model with JavaScript
truthiness, so the empty string never matches). -/
def matchesFiltersAmended (l : Listing) (filters : Option Filters) : Bool :=
  match filters with
  | none => true
  | some f =>
    decide (f.tab = Tab.listing)
      && (match l.priceTon with
          | PriceTon.fin p =>
            (match f.minTon with
             | some mn => decide (mn ≤ p)
             | none => true)
              && (match f.maxTon with
                  | some mx => decide (p ≤ mx)
                  | none => true)
          | _ => false)
      && (f.models.isEmpty
          || (match l.model with
              | some md => md != "" && (f.models.map strToLower).contains (strToLower md)
              | none => false))

/-! ## Alert dispatcher (`sendTelegramAlert`) -/

/-- The outcome of one Telegram HTTP call: success, a non-success HTTP
response, or a thrown transport error. -/
inductive SendOutcome where
  | ok
  | httpFail
  | threw
deriving DecidableEq

/-- What one `sendTelegramAlert` call did: which sends were attempted and
whether an error propagated to the caller. -/
structure AlertResult where
  photoAttempted : Bool
  textAttempted : Bool
  errored : Bool
deriving DecidableEq

/-- Embeds the control flow of `sendTelegramAlert` (payload construction
elided, as it cannot affect control flow): with a truthy photo URL the
photo send is tried first and returns on success; any photo failure —
non-success response or thrown error — is caught, logged and falls through
to the text send; a failing text send propagates an error to the caller. -/
def sendTelegramAlert (photoUrl : Option String) (photoSend textSend : SendOutcome) :
    AlertResult :=
  if strTruthy photoUrl then
    match photoSend with
    | SendOutcome.ok => { photoAttempted := true, textAttempted := false, errored := false }
    | _ =>
      match textSend with
      | SendOutcome.ok => { photoAttempted := true, textAttempted := true, errored := false }
      | _ => { photoAttempted := true, textAttempted := true, errored := true }
  else
    match textSend with
    | SendOutcome.ok => { photoAttempted := false, textAttempted := true, errored := false }
    | _ => { photoAttempted := false, textAttempted := true, errored := true }

/-! ## Recent-sales aggregation (`getRecentSalesForModel`) -/

/-- `RECENT_SALES_CACHE_TTL_MS`: three minutes. -/
def RECENT_SALES_CACHE_TTL_MS : ℕ := 3 * 60 * 1000

/-- `RECENT_SALES_MAX`: the sample cap. -/
def RECENT_SALES_MAX : ℕ := 3

/-- One entry of the per-model recent-sales cache. -/
structure SalesEntry where
  atTime : ℕ
  prices : List ℚ
deriving DecidableEq

/-- The `recentSalesCache` map in insertion order. -/
abbrev SalesCache := List (String × SalesEntry)

/-- `Map.get` on the sales cache. -/
def salesCacheGet (c : SalesCache) (k : String) : Option SalesEntry :=
  (c.find? (fun e => e.1 == k)).map (fun e => e.2)

/-- `Map.set` on the sales cache. -/
def salesCacheSet (c : SalesCache) (k : String) (v : SalesEntry) : SalesCache :=
  if (c.find? (fun e => e.1 == k)).isSome then
    c.map (fun e => if e.1 == k then (k, v) else e)
  else c ++ [(k, v)]

/-- Embeds `getActionType`: the first string among `type`, `action_type`,
`kind`. -/
def getActionType (action : Json) : Option String :=
  match jget action "type" with
  | some (Json.jstr s) => some s
  | _ =>
    match jget action "action_type" with
    | some (Json.jstr s) => some s
    | _ =>
      match jget action "kind" with
      | some (Json.jstr s) => some s
      | _ => none

/-- The candidate keys for the traded asset's address. -/
def nftAddressKeys : List String :=
  ["nft_address", "nft", "nft_item", "item", "address"]

/-- The candidate keys for the sale amount. -/
def saleAmountKeys : List String :=
  ["amount", "price", "ton", "ton_amount", "value"]

/-- One iteration of the actions loop of `getRecentSalesForModel`: either
the qualifying sale price of the action (with the model cache updated by
the per-asset lookup) or nothing; every guard mirrors one `continue` of
the source, `m` being the trimmed requested model. -/
def scanActionStep (fetchNft : String → Option Json) (now : ℕ) (m : String)
    (act : Json) (mc : ModelCache) : Option ℚ × ModelCache :=
  if !(jsTruthy act && jsTypeofObject act) then (none, mc)
  else
    let typ := strToLower ((getActionType act).getD "")
    if !(strIncludes typ "purchase" || strIncludes typ "nftpurchase") then (none, mc)
    else
      match findFirstAddressByKeys act nftAddressKeys with
      | none => (none, mc)
      | some nftAddress =>
        let r := getModelByNftAddressCached fetchNft now mc nftAddress
        match r.1 with
        | none => (none, r.2)
        | some foundModel =>
          if foundModel = "" then (none, r.2)
          else if strToLower foundModel ≠ strToLower m then (none, r.2)
          else
            match findFirstNumberLike act saleAmountKeys with
            | none => (none, r.2)
            | some rawAmount =>
              let ton := toTonMaybe rawAmount
              if 0 < ton then (some ton, r.2) else (none, r.2)

/-- The inner actions loop of `getRecentSalesForModel`: the accumulator
grows by the qualifying price of each action in turn and the loop breaks
as soon as the cap is reached. -/
def scanActions (fetchNft : String → Option Json) (now : ℕ) (m : String) :
    List Json → ModelCache → List ℚ → List ℚ × ModelCache
  | [], mc, prices => (prices, mc)
  | act :: rest, mc, prices =>
    if RECENT_SALES_MAX ≤ prices.length then (prices, mc)
    else
      let r := scanActionStep fetchNft now m act mc
      match r.1 with
      | some ton => scanActions fetchNft now m rest r.2 (prices ++ [ton])
      | none => scanActions fetchNft now m rest r.2 prices

/-- The events loop of `getRecentSalesForModel`. -/
def scanEvents (fetchNft : String → Option Json) (now : ℕ) (m : String) :
    List Json → ModelCache → List ℚ → List ℚ × ModelCache
  | [], mc, prices => (prices, mc)
  | ev :: rest, mc, prices =>
    if RECENT_SALES_MAX ≤ prices.length then (prices, mc)
    else if !(jsTruthy ev && jsTypeofObject ev) then
      scanEvents fetchNft now m rest mc prices
    else
      match jget ev "actions" with
      | some (Json.jarr acts) =>
        let r := scanActions fetchNft now m acts mc prices
        scanEvents fetchNft now m rest r.2 r.1
      | _ => scanEvents fetchNft now m rest mc prices

/-- The market-accounts loop of `getRecentSalesForModel` (one activity
fetch per market, its failure or a non-object/array shape skipping the
market). -/
def scanMarkets (fetchNft fetchEvents : String → Option Json) (now : ℕ) (m : String) :
    List String → ModelCache → List ℚ → List ℚ × ModelCache
  | [], mc, prices => (prices, mc)
  | acct :: rest, mc, prices =>
    if RECENT_SALES_MAX ≤ prices.length then (prices, mc)
    else
      match fetchEvents acct with
      | none => scanMarkets fetchNft fetchEvents now m rest mc prices
      | some ev =>
        if !(jsTruthy ev && jsTypeofObject ev) then
          scanMarkets fetchNft fetchEvents now m rest mc prices
        else
          match jget ev "events" with
          | some (Json.jarr evs) =>
            let r := scanEvents fetchNft now m evs mc prices
            scanMarkets fetchNft fetchEvents now m rest r.2 r.1
          | _ => scanMarkets fetchNft fetchEvents now m rest mc prices

/-- The fetch-and-scan path of `getRecentSalesForModel` after the cache
gate: scan, cap, cache, and turn an empty sample into `null`. -/
def recentSalesScan (fetchNft fetchEvents : String → Option Json)
    (marketAccounts : List String) (now : ℕ) (rsCache : SalesCache)
    (mCache : ModelCache) (m : String) :
    Option (List ℚ) × SalesCache × ModelCache :=
  let r := scanMarkets fetchNft fetchEvents now m marketAccounts mCache []
  let out := r.1.take RECENT_SALES_MAX
  (if 0 < out.length then some out else none,
   salesCacheSet rsCache (strToLower m) { atTime := now, prices := out },
   r.2)

/-- Embeds `getRecentSalesForModel`: an empty trimmed model yields `null`;
a fresh cache entry answers directly; otherwise the markets are scanned
with the cap and the (possibly empty) sample is cached. -/
def getRecentSalesForModel (fetchNft fetchEvents : String → Option Json)
    (marketAccounts : List String) (now : ℕ) (rsCache : SalesCache)
    (mCache : ModelCache) (model : String) :
    Option (List ℚ) × SalesCache × ModelCache :=
  let m := strTrim model
  if m = "" then (none, rsCache, mCache)
  else
    match salesCacheGet rsCache (strToLower m) with
    | some e =>
      if now - e.atTime < RECENT_SALES_CACHE_TTL_MS then (some e.prices, rsCache, mCache)
      else recentSalesScan fetchNft fetchEvents marketAccounts now rsCache mCache m
    | none => recentSalesScan fetchNft fetchEvents marketAccounts now rsCache mCache m

/-! ### Pure description of the qualifying sales -/

/-- The model the metadata lookup resolves for an address, ignoring the
cache. -/
def modelOracle (fetchNft : String → Option Json) (addr : String) : Option String :=
  (extractFromNftItem (fetchNft addr)).model

/-- The model `getModelByNftAddressCached` resolves against a fixed cache
state: a fresh entry answers, anything else falls through to the lookup. -/
def resolveModelPure (fetchNft : String → Option Json) (now : ℕ) (mc : ModelCache)
    (addr : String) : Option String :=
  match cacheGet mc addr with
  | some e =>
    if now - e.atTime < NFT_MODEL_CACHE_TTL_MS then e.model
    else modelOracle fetchNft addr
  | none => modelOracle fetchNft addr

/-- The sale price one action contributes when it qualifies: a truthy
action object whose type mentions "purchase" (case-insensitively), whose
asset address resolves to a truthy model equal (case-insensitively) to the
requested one, and whose extracted amount is positive. -/
def actionSalePrice (resolve : String → Option String) (m : String) (act : Json) :
    Option ℚ :=
  if !(jsTruthy act && jsTypeofObject act) then none
  else
    let typ := strToLower ((getActionType act).getD "")
    if !(strIncludes typ "purchase" || strIncludes typ "nftpurchase") then none
    else
      match findFirstAddressByKeys act nftAddressKeys with
      | none => none
      | some nftAddress =>
        match resolve nftAddress with
        | none => none
        | some foundModel =>
          if foundModel = "" then none
          else if strToLower foundModel ≠ strToLower m then none
          else
            match findFirstNumberLike act saleAmountKeys with
            | none => none
            | some rawAmount =>
              let ton := toTonMaybe rawAmount
              if 0 < ton then some ton else none

/-- All qualifying sale prices of one event, in action order. -/
def eventSalePrices (resolve : String → Option String) (m : String) (ev : Json) :
    List ℚ :=
  if !(jsTruthy ev && jsTypeofObject ev) then []
  else
    match jget ev "actions" with
    | some (Json.jarr acts) => acts.filterMap (actionSalePrice resolve m)
    | _ => []

/-- All qualifying sale prices of one market's activity response, in event
order. -/
def marketSalePrices (fetchEvents : String → Option Json)
    (resolve : String → Option String) (m : String) (acct : String) : List ℚ :=
  match fetchEvents acct with
  | none => []
  | some ev =>
    if !(jsTruthy ev && jsTypeofObject ev) then []
    else
      match jget ev "events" with
      | some (Json.jarr evs) => evs.flatMap (eventSalePrices resolve m)
      | _ => []

/-- All qualifying sale prices in market-then-event-then-action iteration
order, resolved against the initial model-cache state. -/
def qualifyingSalePrices (fetchNft fetchEvents : String → Option Json)
    (marketAccounts : List String) (now : ℕ) (mc : ModelCache) (m : String) :
    List ℚ :=
  marketAccounts.flatMap
    (marketSalePrices fetchEvents (resolveModelPure fetchNft now mc) m)

/-! ## Backend filter normalization (`normalizeFilters`) -/

mutual
/-- Models the JavaScript `String(v)` conversion on the values the backend
meets: strings unchanged, `null` is "null", booleans spelled out, numbers
through `jsNumToString`, arrays joined by commas with nullish elements
blank, plain objects the fixed `[object Object]` tag. -/
def jsToString : Json → String
  | Json.jnull => "null"
  | Json.jbool true => "true"
  | Json.jbool false => "false"
  | Json.jnum x => jsNumToString x
  | Json.jstr s => s
  | Json.jarr xs => jsArrJoin xs
  | Json.jobj _ => "[object Object]"

/-- `Array.prototype.toString`: elements joined by commas, null elements
rendered as the empty string. -/
def jsArrJoin : List Json → String
  | [] => ""
  | [Json.jnull] => ""
  | [v] => jsToString v
  | Json.jnull :: vs => "," ++ jsArrJoin vs
  | v :: vs => jsToString v ++ "," ++ jsArrJoin vs
end

/-- Models the JavaScript `Number(v)` conversion: `null` is 0, booleans
are 0/1, strings are parsed, arrays go through their string form, plain
objects are NaN (`none`). -/
def jsToNumber : Json → Option ℚ
  | Json.jnull => some 0
  | Json.jbool true => some 1
  | Json.jbool false => some 0
  | Json.jnum x => x
  | Json.jstr s => strToNum s
  | Json.jarr xs => strToNum (jsArrJoin xs)
  | Json.jobj _ => none

/-- Embeds `normalizeTab`: `String(v ?? '').toLowerCase()` against the
fixed vocabulary, defaulting to `listing`. -/
def normalizeTab (v : Option Json) : Tab :=
  let s := strToLower (jsToString (if jnullish v then Json.jstr "" else v.getD Json.jnull))
  if s = "sale" then Tab.sale
  else if s = "rent" then Tab.rent
  else Tab.listing

/-- Embeds `asNumber`: a number is used as is, anything else goes through
`Number(v)`; a non-finite result falls back to the default. -/
def asNumber (v : Option Json) (dflt : ℚ) : ℚ :=
  let n : Option ℚ :=
    match v with
    | some (Json.jnum x) => x
    | some j => jsToNumber j
    | none => none
  match n with
  | some q => q
  | none => dflt

/-- Embeds `normalizeFilters`: a non-object body is replaced by `{}`; the
tab is normalized, the bounds default to 0 and 5000 and are clamped at 0,
and the models are stringified, trimmed, stripped of empties and capped at
500. -/
def normalizeFilters (input : Option Json) : Filters :=
  let obj : Json :=
    match input with
    | some j => if jsTruthy j && jsTypeofObject j then j else Json.jobj []
    | none => Json.jobj []
  let tab := normalizeTab (jget obj "tab")
  let minTon := max 0 (asNumber (jget obj "minTon") 0)
  let maxTon := max 0 (asNumber (jget obj "maxTon") 5000)
  let modelsRaw :=
    match jget obj "models" with
    | some (Json.jarr xs) => xs
    | _ => []
  let models :=
    ((modelsRaw.map (fun m => strTrim (jsToString m))).filter (fun s => s != "")).take 500
  { tab := tab, minTon := some minTon, maxTon := some maxTon, models := models }

/-! ## Theorems -/

theorem stripEscapes_cons_ne (c : Char) (rest : List Char) (h : c ≠ '\\') :
    stripEscapes (c :: rest) = c :: stripEscapes rest := by
  rw [stripEscapes.eq_def]
  simp [h]

theorem stripEscapes_cons_esc (d : Char) (rest : List Char)
    (h : mdReserved.contains d = true) :
    stripEscapes ('\\' :: d :: rest) = d :: stripEscapes rest := by
  have hd : d ∈ mdReserved := by simpa using h
  rw [stripEscapes.eq_def]
  simp [hd]

theorem stripEscapes_flatMap (l : List Char) :
    stripEscapes (l.flatMap escChar) = l := by
  induction l with
  | nil => rfl
  | cons c tl ih =>
    by_cases hc : mdReserved.contains c = true
    · rw [List.flatMap_cons, escChar, if_pos hc, List.cons_append, List.cons_append,
        List.nil_append, stripEscapes_cons_esc c _ hc, ih]
    · have hne : c ≠ '\\' := by
        intro h
        apply hc
        rw [h]
        decide
      rw [List.flatMap_cons, escChar, if_neg hc, List.cons_append, List.nil_append,
        stripEscapes_cons_ne c _ hne, ih]

/-- C9: Markdown escaping round-trips structurally — stripping the one
escape backslash in front of every reserved character from
`escapeMarkdownV2 s` reproduces `s` exactly. -/
theorem escapeMarkdownV2_roundtrip (s : String) :
    stripEscapesStr (escapeMarkdownV2 s) = s := by
  obtain ⟨l⟩ := s
  simp only [stripEscapesStr, escapeMarkdownV2, String.toList]
  exact congrArg String.mk (stripEscapes_flatMap l)

/-- C6: after every inline sweep the seen map keeps no entry older than the
TTL, holds at most `SEEN_MAX` entries, and is exactly the TTL-filtered map
with its oldest-inserted overflow removed from the front (oldest-first,
insertion order). -/
theorem cleanupSeen_bounds (now : ℕ) (m : SeenMap) :
    cleanupSeen now m
        = (seenTtlFilter now m).drop ((seenTtlFilter now m).length - SEEN_MAX)
      ∧ (∀ e ∈ cleanupSeen now m, now - e.2 ≤ SEEN_TTL_MS)
      ∧ (cleanupSeen now m).length ≤ SEEN_MAX := by
  constructor
  · unfold cleanupSeen
    by_cases h : (seenTtlFilter now m).length ≤ SEEN_MAX
    · simp only [h, if_pos]
      have : (seenTtlFilter now m).length - SEEN_MAX = 0 := Nat.sub_eq_zero_of_le h
      rw [this, List.drop_zero]
    · simp only [h, if_neg, not_false_iff]
  · constructor
    · intro e he
      have hmem : e ∈ seenTtlFilter now m := by
        unfold cleanupSeen at he
        by_cases h : (seenTtlFilter now m).length ≤ SEEN_MAX
        · simpa [h] using he
        · simp only [h, if_neg, not_false_iff] at he
          exact List.mem_of_mem_drop he
      have := List.of_mem_filter hmem
      simpa using Nat.le_of_not_lt (by simpa using this)
    · unfold cleanupSeen
      by_cases h : (seenTtlFilter now m).length ≤ SEEN_MAX
      · simp [h]
      · simp only [h, if_neg, not_false_iff, List.length_drop]
        omega

theorem seenHas_cleanupSeen (t : ℕ) (m : SeenMap) (h : String)
    (hc : seenHas (cleanupSeen t m) h = true) : seenHas m h = true := by
  have hf : seenHas (seenTtlFilter t m) h = true → seenHas m h = true := by
    simp only [seenHas, List.any_eq_true]
    rintro ⟨e, he, hh⟩
    exact ⟨e, List.mem_of_mem_filter he, hh⟩
  unfold cleanupSeen at hc
  by_cases hl : (seenTtlFilter t m).length ≤ SEEN_MAX
  · exact hf (by simpa [hl] using hc)
  · simp only [hl, if_neg, not_false_iff] at hc
    apply hf
    simp only [seenHas, List.any_eq_true] at hc ⊢
    obtain ⟨e, he, hh⟩ := hc
    exact ⟨e, List.mem_of_mem_drop he, hh⟩

theorem seenHas_append (m : SeenMap) (e : String × ℕ) (h : String) :
    seenHas (m ++ [e]) h = (seenHas m h || (e.1 == h)) := by
  simp [seenHas, List.any_append]

theorem flagsFor_cons (h : String) (m : SeenMap) (d : String × ℕ)
    (tl : List (String × ℕ)) :
    flagsFor h m (d :: tl)
      = (if (d.1 == h) = true then [(dedupStep m d).1] else [])
          ++ flagsFor h (dedupStep m d).2 tl := by
  by_cases hd : (d.1 == h) = true <;>
    simp [flagsFor, dedupRun, List.filter_cons, hd]

theorem flagsFor_present (h : String) (ds : List (String × ℕ)) :
    ∀ m, seenHas m h = true → survivesRun h m ds = true →
      flagsFor h m ds
        = List.replicate ((ds.filter (fun d => d.1 == h)).length) false := by
  induction ds with
  | nil => intro m _ _; rfl
  | cons d tl ih =>
    intro m hm hs
    have hs' : (!(seenHas m h) || seenHas (cleanupSeen d.2 m) h) = true
        ∧ survivesRun h (dedupStep m d).2 tl = true := by
      simpa [survivesRun, Bool.and_eq_true] using hs
    have hm1 : seenHas (cleanupSeen d.2 m) h = true := by
      have := hs'.1
      simpa [hm] using this
    rw [flagsFor_cons]
    by_cases hd : (d.1 == h) = true
    · have heq : d.1 = h := eq_of_beq hd
      have hstep : dedupStep m d = (false, cleanupSeen d.2 m) := by
        simp [dedupStep, heq, hm1]
      rw [List.filter_cons_of_pos (by simpa using hd)]
      simp only [hstep, hd, if_pos]
      rw [ih (cleanupSeen d.2 m) hm1 (by simpa [hstep] using hs'.2)]
      simp [List.replicate_succ]
    · have hm' : seenHas (dedupStep m d).2 h = true := by
        by_cases hc : seenHas (cleanupSeen d.2 m) d.1 = true
        · simpa [dedupStep, hc] using hm1
        · have hcf : seenHas (cleanupSeen d.2 m) d.1 = false := by simpa using hc
          simp [dedupStep, hcf, seenHas_append, hm1]
      rw [List.filter_cons_of_neg (by simpa using hd)]
      simp only [hd, if_neg, not_false_iff, List.nil_append]
      exact ih _ hm' hs'.2

/-- C2: within a window where the hash neither ages out of the dedup TTL
nor is capacity-evicted (the `survivesRun` condition), the dedup gate
treats a hash that is not yet in the seen map as unseen exactly once — on
its first delivery — and drops every subsequent delivery of that hash. -/
theorem dedup_gate_once (h : String) (ds : List (String × ℕ)) : ∀ m,
    seenHas m h = false → survivesRun h m ds = true →
      flagsFor h m ds
        = if (ds.filter (fun d => d.1 == h)).length = 0 then []
          else true :: List.replicate ((ds.filter (fun d => d.1 == h)).length - 1) false := by
  induction ds with
  | nil => intro m _ _; rfl
  | cons d tl ih =>
    intro m hm hs
    have hs' : (!(seenHas m h) || seenHas (cleanupSeen d.2 m) h) = true
        ∧ survivesRun h (dedupStep m d).2 tl = true := by
      simpa [survivesRun, Bool.and_eq_true] using hs
    have hm1 : seenHas (cleanupSeen d.2 m) h = false := by
      by_cases hc : seenHas (cleanupSeen d.2 m) h = true
      · exact absurd (seenHas_cleanupSeen d.2 m h hc) (by simp [hm])
      · simpa using hc
    rw [flagsFor_cons]
    by_cases hd : (d.1 == h) = true
    · have heq : d.1 = h := eq_of_beq hd
      have hstep : dedupStep m d
          = (true, cleanupSeen d.2 m ++ [(d.1, d.2)]) := by
        simp [dedupStep, heq, hm1]
      have hm' : seenHas (cleanupSeen d.2 m ++ [(d.1, d.2)]) h = true := by
        rw [seenHas_append, hd]
        simp
      have hs2 : survivesRun h (cleanupSeen d.2 m ++ [(d.1, d.2)]) tl = true := by
        have := hs'.2
        rwa [hstep] at this
      rw [List.filter_cons_of_pos (by simpa using hd)]
      simp only [hstep, hd, if_pos]
      rw [flagsFor_present h tl _ hm' hs2]
      simp
    · have hm' : seenHas (dedupStep m d).2 h = false := by
        by_cases hc : seenHas (cleanupSeen d.2 m) d.1 = true
        · simpa [dedupStep, hc] using hm1
        · have hcf : seenHas (cleanupSeen d.2 m) d.1 = false := by simpa using hc
          have hdf : (d.1 == h) = false := by simpa using hd
          simp [dedupStep, hcf, seenHas_append, hm1, hdf]
      rw [List.filter_cons_of_neg (by simpa using hd)]
      simp only [hd, if_neg, not_false_iff, List.nil_append]
      exact ih _ hm' hs'.2

/-- C2 witness: an empty seen map and four deliveries, three of them the
same hash within the window: the first is processed, the two repeats are
dropped. -/
theorem dedup_gate_once_witness :
    flagsFor "a" [] [("a", 0), ("a", 1), ("b", 2), ("a", 3)]
      = if (([("a", 0), ("a", 1), ("b", 2), ("a", 3)].filter
              (fun d => d.1 == "a")).length) = 0 then []
        else true :: List.replicate
          ((([("a", 0), ("a", 1), ("b", 2), ("a", 3)].filter
              (fun d => d.1 == "a")).length) - 1) false :=
  dedup_gate_once "a" [("a", 0), ("a", 1), ("b", 2), ("a", 3)] []
    (by decide) (by decide)

/-- C1 counterexample: a filter whose `minTon` is NaN matches a listing the
claim's predicate rejects (the code skips a non-finite bound, the claim's
`minTon <= p` is false); and a listing whose model is the empty string is
rejected by the code although the claim's "model is present and a member"
is satisfied when the model set contains the empty string. -/
theorem matchesFilters_claim_cex :
    matchesFilters
        { nftAddress := "EQx", priceTon := PriceTon.fin 5, marketLabel := "M" }
        (some { tab := Tab.listing, minTon := none, maxTon := some 10, models := [] })
      = true
  ∧ matchesFiltersClaim
        { nftAddress := "EQx", priceTon := PriceTon.fin 5, marketLabel := "M" }
        (some { tab := Tab.listing, minTon := none, maxTon := some 10, models := [] })
      = false
  ∧ matchesFilters
        { nftAddress := "EQx", priceTon := PriceTon.fin 5, marketLabel := "M",
          model := some "" }
        (some { tab := Tab.listing, minTon := some 0, maxTon := some 10, models := [""] })
      = false
  ∧ matchesFiltersClaim
        { nftAddress := "EQx", priceTon := PriceTon.fin 5, marketLabel := "M",
          model := some "" }
        (some { tab := Tab.listing, minTon := some 0, maxTon := some 10, models := [""] })
      = true := by
  refine ⟨?_, ?_, ?_, ?_⟩ <;> decide

/-- C1 (amended): `matchesFilters` agrees everywhere with the claim's
predicate amended so that a non-finite bound imposes no constraint and the
listing model must be non-empty to match; absent filters still match
everything. -/
theorem matchesFilters_amended (l : Listing) (filters : Option Filters) :
    matchesFilters l filters = matchesFiltersAmended l filters := by
  obtain ⟨_, pt, _, _, mdl, _, _, _, _⟩ := l
  cases filters with
  | none => rfl
  | some f =>
    obtain ⟨tab, mn, mx, models⟩ := f
    cases tab with
    | sale => rfl
    | rent => rfl
    | listing =>
      cases pt with
      | absent => rfl
      | nonfinite => rfl
      | fin p =>
        have htail :
            (if 0 < models.length then
                (match mdl with
                 | none => false
                 | some md =>
                   if md = "" then false
                   else (models.map strToLower).contains (strToLower md))
              else true)
            = (models.isEmpty
                || (match mdl with
                    | some md => md != "" && (models.map strToLower).contains (strToLower md)
                    | none => false)) := by
          by_cases hm : models = []
          · subst hm
            cases mdl <;> simp
          · have h1 : 0 < models.length := List.length_pos.mpr hm
            have h2 : models.isEmpty = false := by
              simp [List.isEmpty_iff, hm]
            cases mdl with
            | none => simp [h1, h2]
            | some md =>
              by_cases hs : md = "" <;> simp [h1, h2, hs]
        cases mn with
        | none =>
          cases mx with
          | none =>
            simpa [matchesFilters, matchesFiltersAmended] using htail
          | some mxv =>
            by_cases hx : mxv < p
            · simp [matchesFilters, matchesFiltersAmended, hx, not_le.mpr hx]
            · simp only [matchesFilters, matchesFiltersAmended]
              simp [hx, not_lt.mp hx]
              simpa using htail
        | some mnv =>
          by_cases hn : p < mnv
          · simp [matchesFilters, matchesFiltersAmended, hn, not_le.mpr hn]
          · cases mx with
            | none =>
              simp only [matchesFilters, matchesFiltersAmended]
              simp [hn, not_lt.mp hn]
              simpa using htail
            | some mxv =>
              by_cases hx : mxv < p
              · simp [matchesFilters, matchesFiltersAmended, hn, hx, not_le.mpr hx]
              · simp only [matchesFilters, matchesFiltersAmended]
                simp [hn, hx, not_lt.mp hn, not_lt.mp hx]
                simpa using htail

/-- C4 counterexample: the claim's unconditional idempotence fails —
`toTon` of 10^16 is 10^7, still above the threshold, so a second
application rescales it again to 1/100. -/
theorem toTon_not_idempotent :
    toTon (Json.jnum (some ((10 : ℚ) ^ 16))) = some ((10 : ℚ) ^ 7)
  ∧ toTon (Json.jnum (some ((10 : ℚ) ^ 7))) = some ((1 : ℚ) / 100)
  ∧ ((10 : ℚ) ^ 7) ≠ ((1 : ℚ) / 100) := by
  refine ⟨?_, ?_, by norm_num⟩ <;>
    norm_num [toTon, toTonPrim, scaleTon]

/-- C4 (amended): for every finite value at most 10^15 — i.e. whenever a
single application lands at or below the scale threshold — `toTon` is
idempotent, `toTonMaybe` is idempotent, and a value already at or below
the threshold is returned unchanged; the same holds through the numeric
string entry point. -/
theorem toTon_idempotent_below (q : ℚ) (hq : q ≤ 10 ^ 15) :
    (∀ r, toTon (Json.jnum (some q)) = some r → toTon (Json.jnum (some r)) = some r)
  ∧ toTonMaybe (toTonMaybe q) = toTonMaybe q
  ∧ (q ≤ 1000000 → toTon (Json.jnum (some q)) = some q)
  ∧ (∀ s r, strToNum s = some q → toTon (Json.jstr s) = some r →
      toTon (Json.jnum (some r)) = some r) := by
  have key : scaleTon (scaleTon q) = scaleTon q := by
    unfold scaleTon
    by_cases h1 : 1000000 < q
    · have hle : q / 1000000000 ≤ 1000000 := by
        rw [div_le_iff₀ (by norm_num : (0 : ℚ) < 1000000000)]
        calc q ≤ 10 ^ 15 := hq
          _ = 1000000 * 1000000000 := by norm_num
      rw [if_pos h1, if_neg (not_lt.mpr hle)]
    · rw [if_neg h1, if_neg h1]
  constructor
  · intro r hr
    simp only [toTon, toTonPrim, Option.some.injEq] at hr
    simp only [toTon, toTonPrim, ← hr, key]
  constructor
  · simpa [toTonMaybe, scaleTon] using key
  constructor
  · intro hsmall
    simp [toTon, toTonPrim, scaleTon, not_lt.mpr hsmall]
  · intro s r hs hr
    simp only [toTon, toTonPrim, hs, Option.map_some', Option.some.injEq] at hr
    simp only [toTon, toTonPrim, ← hr, key]

/-- C4 witness: the raw nanoton amount 5_000_000_000 normalizes to 5 and a
second application leaves it at 5. -/
theorem toTon_idempotent_below_witness :
    (∀ r, toTon (Json.jnum (some (5000000000 : ℚ))) = some r →
        toTon (Json.jnum (some r)) = some r)
  ∧ toTonMaybe (toTonMaybe (5000000000 : ℚ)) = toTonMaybe (5000000000 : ℚ)
  ∧ ((5000000000 : ℚ) ≤ 1000000 →
        toTon (Json.jnum (some (5000000000 : ℚ))) = some (5000000000 : ℚ))
  ∧ (∀ s r, strToNum s = some (5000000000 : ℚ) → toTon (Json.jstr s) = some r →
        toTon (Json.jnum (some r)) = some r) :=
  toTon_idempotent_below 5000000000 (by norm_num)

/-- C5: `sendTelegramAlert` propagates an error exactly when it attempted
the text send and that send failed; the text send is attempted exactly when
there is no truthy photo URL whose photo send succeeded (so a successful
photo send returns without text and without error, and a failed photo send
always falls back to text); the photo send is attempted exactly when the
photo URL is truthy. -/
theorem sendTelegramAlert_error_iff (photoUrl : Option String) (ps ts : SendOutcome) :
    ((sendTelegramAlert photoUrl ps ts).errored
      = ((sendTelegramAlert photoUrl ps ts).textAttempted && !(ts == SendOutcome.ok)))
  ∧ ((sendTelegramAlert photoUrl ps ts).textAttempted
      = !(strTruthy photoUrl && (ps == SendOutcome.ok)))
  ∧ ((sendTelegramAlert photoUrl ps ts).photoAttempted = strTruthy photoUrl) := by
  cases hpt : strTruthy photoUrl <;> cases ps <;> cases ts <;>
    simp [sendTelegramAlert, hpt]

/-- C3 counterexample: with an empty cache, a failed per-asset lookup (the
oracle returns null) does populate the model cache with a negative entry —
the very write the claim says does not happen on lookup failure. -/
theorem negative_cache_on_failed_lookup :
    (getModelByNftAddressCached (fun _ => none) 0 [] "EQnft").2
      = [("EQnft", { atTime := 0, model := none })]
  ∧ (getModelByNftAddressCached (fun _ => none) 0 [] "EQnft").1 = none := by
  exact ⟨rfl, rfl⟩

/-- C3 (amended): on every cache miss (no entry, or only a stale one) the
model cache is unconditionally populated with `{at := now, model := m}`
where `m` is whatever `extractFromNftItem` recovers from the lookup result
— in particular a negative entry both after a failed lookup (`null`, which
extracts no model) and after a successful lookup whose payload has no
model field. -/
theorem getModelByNftAddressCached_always_caches (fetchNft : String → Option Json)
    (now : ℕ) (cache : ModelCache) (addr : String)
    (hmiss : ∀ e, cacheGet cache addr = some e →
      ¬(now - e.atTime < NFT_MODEL_CACHE_TTL_MS)) :
    getModelByNftAddressCached fetchNft now cache addr
      = ((extractFromNftItem (fetchNft addr)).model,
         cacheSet cache addr
           { atTime := now, model := (extractFromNftItem (fetchNft addr)).model }) := by
  cases hc : cacheGet cache addr with
  | none => simp [getModelByNftAddressCached, hc]
  | some e => simp [getModelByNftAddressCached, hc, hmiss e hc]

/-- C3 witness: the amended statement at the failed-lookup input — the
cache gains the negative entry. -/
theorem getModelByNftAddressCached_always_caches_witness :
    getModelByNftAddressCached (fun _ => none) 0 [] "EQnft"
      = ((extractFromNftItem ((fun (_ : String) => (none : Option Json)) "EQnft")).model,
         cacheSet [] "EQnft"
           { atTime := 0,
             model := (extractFromNftItem
               ((fun (_ : String) => (none : Option Json)) "EQnft")).model }) :=
  getModelByNftAddressCached_always_caches (fun _ => none) 0 [] "EQnft"
    (by intro e he; simp [cacheGet] at he)

theorem one_le_sizeJ (v : Json) : 1 ≤ sizeJ v := by
  cases v <;> simp [sizeJ]

theorem one_le_sizeL (xs : List Json) : 1 ≤ sizeL xs := by
  cases xs with
  | nil => simp [sizeL]
  | cons v vs =>
    simp [sizeL]
    omega

theorem one_le_sizeF (fs : List (String × Json)) : 1 ≤ sizeF fs := by
  cases fs with
  | nil => simp [sizeF]
  | cons e fs' =>
    obtain ⟨k, v⟩ := e
    simp [sizeF]
    omega

theorem ffs_fuel_agrees : ∀ fuel : ℕ,
    (∀ v keys, sizeJ v ≤ fuel →
      findFirstStringByKeysF fuel v keys = some (findFirstStringByKeys v keys))
  ∧ (∀ xs keys, sizeL xs ≤ fuel →
      ffsListF fuel xs keys = some (ffsList xs keys))
  ∧ (∀ fs keys, sizeF fs ≤ fuel →
      ffsFieldsF fuel fs keys = some (ffsFields fs keys)) := by
  intro fuel
  induction fuel with
  | zero =>
    refine ⟨?_, ?_, ?_⟩
    · intro v keys h
      exact absurd h (by have := one_le_sizeJ v; omega)
    · intro xs keys h
      exact absurd h (by have := one_le_sizeL xs; omega)
    · intro fs keys h
      exact absurd h (by have := one_le_sizeF fs; omega)
  | succ fuel ih =>
    obtain ⟨ihJ, ihL, ihF⟩ := ih
    refine ⟨?_, ?_, ?_⟩
    · intro v keys h
      cases v with
      | jarr xs =>
        have hx : sizeL xs ≤ fuel := by simp [sizeJ] at h; omega
        simp [findFirstStringByKeysF, findFirstStringByKeys, ihL xs keys hx]
      | jobj fs =>
        have hx : sizeF fs ≤ fuel := by simp [sizeJ] at h; omega
        cases hd : firstDirectString fs keys with
        | some s => simp [findFirstStringByKeysF, findFirstStringByKeys, hd]
        | none => simp [findFirstStringByKeysF, findFirstStringByKeys, hd, ihF fs keys hx]
      | jnull => rfl
      | jbool b => rfl
      | jnum x => rfl
      | jstr s => rfl
    · intro xs keys h
      cases xs with
      | nil => rfl
      | cons v vs =>
        have h1 : sizeJ v ≤ fuel := by simp [sizeL] at h; omega
        have h2 : sizeL vs ≤ fuel := by simp [sizeL] at h; omega
        simp only [ffsListF, ffsList, ihJ v keys h1]
        cases ht : strTruthy (findFirstStringByKeys v keys) <;>
          simp [ht, ihL vs keys h2]
    · intro fs keys h
      cases fs with
      | nil => rfl
      | cons e fs' =>
        obtain ⟨k, v⟩ := e
        have h1 : sizeJ v ≤ fuel := by simp [sizeF] at h; omega
        have h2 : sizeF fs' ≤ fuel := by simp [sizeF] at h; omega
        simp only [ffsFieldsF, ffsFields, ihJ v keys h1]
        cases ht : strTruthy (findFirstStringByKeys v keys) <;>
          simp [ht, ihF fs' keys h2]

theorem ffn_fuel_agrees : ∀ fuel : ℕ,
    (∀ v keys, sizeJ v ≤ fuel →
      findFirstNumberLikeF fuel v keys = some (findFirstNumberLike v keys))
  ∧ (∀ xs keys, sizeL xs ≤ fuel →
      ffnListF fuel xs keys = some (ffnList xs keys))
  ∧ (∀ fs keys, sizeF fs ≤ fuel →
      ffnFieldsF fuel fs keys = some (ffnFields fs keys)) := by
  intro fuel
  induction fuel with
  | zero =>
    refine ⟨?_, ?_, ?_⟩
    · intro v keys h
      exact absurd h (by have := one_le_sizeJ v; omega)
    · intro xs keys h
      exact absurd h (by have := one_le_sizeL xs; omega)
    · intro fs keys h
      exact absurd h (by have := one_le_sizeF fs; omega)
  | succ fuel ih =>
    obtain ⟨ihJ, ihL, ihF⟩ := ih
    refine ⟨?_, ?_, ?_⟩
    · intro v keys h
      cases v with
      | jarr xs =>
        have hx : sizeL xs ≤ fuel := by simp [sizeJ] at h; omega
        simp [findFirstNumberLikeF, findFirstNumberLike, ihL xs keys hx]
      | jobj fs =>
        have hx : sizeF fs ≤ fuel := by simp [sizeJ] at h; omega
        cases hd : firstDirectNumber fs keys with
        | some t => simp [findFirstNumberLikeF, findFirstNumberLike, hd]
        | none => simp [findFirstNumberLikeF, findFirstNumberLike, hd, ihF fs keys hx]
      | jnull => rfl
      | jbool b => rfl
      | jnum x => rfl
      | jstr s => rfl
    · intro xs keys h
      cases xs with
      | nil => rfl
      | cons v vs =>
        have h1 : sizeJ v ≤ fuel := by simp [sizeL] at h; omega
        have h2 : sizeL vs ≤ fuel := by simp [sizeL] at h; omega
        simp only [ffnListF, ffnList, ihJ v keys h1]
        cases ht : findFirstNumberLike v keys <;>
          simp [ht, ihL vs keys h2]
    · intro fs keys h
      cases fs with
      | nil => rfl
      | cons e fs' =>
        obtain ⟨k, v⟩ := e
        have h1 : sizeJ v ≤ fuel := by simp [sizeF] at h; omega
        have h2 : sizeF fs' ≤ fuel := by simp [sizeF] at h; omega
        simp only [ffnFieldsF, ffnFields, ihJ v keys h1]
        cases ht : findFirstNumberLike v keys <;>
          simp [ht, ihF fs' keys h2]

theorem ffa_fuel_agrees : ∀ fuel : ℕ,
    (∀ v keys, sizeJ v ≤ fuel →
      findFirstAddressByKeysF fuel v keys = some (findFirstAddressByKeys v keys))
  ∧ (∀ xs keys, sizeL xs ≤ fuel →
      ffaListF fuel xs keys = some (ffaList xs keys))
  ∧ (∀ fs keys, sizeF fs ≤ fuel →
      ffaFieldsF fuel fs keys = some (ffaFields fs keys)) := by
  intro fuel
  induction fuel with
  | zero =>
    refine ⟨?_, ?_, ?_⟩
    · intro v keys h
      exact absurd h (by have := one_le_sizeJ v; omega)
    · intro xs keys h
      exact absurd h (by have := one_le_sizeL xs; omega)
    · intro fs keys h
      exact absurd h (by have := one_le_sizeF fs; omega)
  | succ fuel ih =>
    obtain ⟨ihJ, ihL, ihF⟩ := ih
    refine ⟨?_, ?_, ?_⟩
    · intro v keys h
      cases v with
      | jarr xs =>
        have hx : sizeL xs ≤ fuel := by simp [sizeJ] at h; omega
        simp [findFirstAddressByKeysF, findFirstAddressByKeys, ihL xs keys hx]
      | jobj fs =>
        have hx : sizeF fs ≤ fuel := by simp [sizeJ] at h; omega
        cases hd : firstDirectAddress fs keys with
        | some a => simp [findFirstAddressByKeysF, findFirstAddressByKeys, hd]
        | none => simp [findFirstAddressByKeysF, findFirstAddressByKeys, hd, ihF fs keys hx]
      | jnull => rfl
      | jbool b => rfl
      | jnum x => rfl
      | jstr s => rfl
    · intro xs keys h
      cases xs with
      | nil => rfl
      | cons v vs =>
        have h1 : sizeJ v ≤ fuel := by simp [sizeL] at h; omega
        have h2 : sizeL vs ≤ fuel := by simp [sizeL] at h; omega
        simp only [ffaListF, ffaList, ihJ v keys h1]
        cases ht : strTruthy (findFirstAddressByKeys v keys) <;>
          simp [ht, ihL vs keys h2]
    · intro fs keys h
      cases fs with
      | nil => rfl
      | cons e fs' =>
        obtain ⟨k, v⟩ := e
        have h1 : sizeJ v ≤ fuel := by simp [sizeF] at h; omega
        have h2 : sizeF fs' ≤ fuel := by simp [sizeF] at h; omega
        simp only [ffaFieldsF, ffaFields, ihJ v keys h1]
        cases ht : strTruthy (findFirstAddressByKeys v keys) <;>
          simp [ht, ihF fs' keys h2]

theorem allStrs_fuel_agrees : ∀ fuel : ℕ,
    (∀ v key, sizeJ v ≤ fuel →
      findAllStringsByKeyF fuel v key = some (findAllStringsByKey v key))
  ∧ (∀ xs key, sizeL xs ≤ fuel →
      allStrsListF fuel xs key = some (allStrsList xs key))
  ∧ (∀ fs key, sizeF fs ≤ fuel →
      allStrsFieldsF fuel fs key = some (allStrsFields fs key)) := by
  intro fuel
  induction fuel with
  | zero =>
    refine ⟨?_, ?_, ?_⟩
    · intro v key h
      exact absurd h (by have := one_le_sizeJ v; omega)
    · intro xs key h
      exact absurd h (by have := one_le_sizeL xs; omega)
    · intro fs key h
      exact absurd h (by have := one_le_sizeF fs; omega)
  | succ fuel ih =>
    obtain ⟨ihJ, ihL, ihF⟩ := ih
    refine ⟨?_, ?_, ?_⟩
    · intro v key h
      cases v with
      | jarr xs =>
        have hx : sizeL xs ≤ fuel := by simp [sizeJ] at h; omega
        simp [findAllStringsByKeyF, findAllStringsByKey, ihL xs key hx]
      | jobj fs =>
        have hx : sizeF fs ≤ fuel := by simp [sizeJ] at h; omega
        simp [findAllStringsByKeyF, findAllStringsByKey, ihF fs key hx]
      | jnull => rfl
      | jbool b => rfl
      | jnum x => rfl
      | jstr s => rfl
    · intro xs key h
      cases xs with
      | nil => rfl
      | cons v vs =>
        have h1 : sizeJ v ≤ fuel := by simp [sizeL] at h; omega
        have h2 : sizeL vs ≤ fuel := by simp [sizeL] at h; omega
        simp [allStrsListF, allStrsList, ihJ v key h1, ihL vs key h2]
    · intro fs key h
      cases fs with
      | nil => rfl
      | cons e fs' =>
        obtain ⟨k, v⟩ := e
        have h1 : sizeJ v ≤ fuel := by simp [sizeF] at h; omega
        have h2 : sizeF fs' ≤ fuel := by simp [sizeF] at h; omega
        simp [allStrsFieldsF, allStrsFields, ihJ v key h1, ihF fs' key h2]

/-- C7: the four payload-extraction functions are total on JSON-like input
of every shape — with fuel at least the size of the tree, the step-counted
evaluation of each search never runs out of fuel and returns exactly the
value of the (total, `Option`-valued) function, whose `none` result — not
an error — signals absence of a match. -/
theorem extractors_total (fuel : ℕ) (v : Json) (keys : List String) (key : String)
    (h : sizeJ v ≤ fuel) :
    findFirstStringByKeysF fuel v keys = some (findFirstStringByKeys v keys)
  ∧ findFirstNumberLikeF fuel v keys = some (findFirstNumberLike v keys)
  ∧ findFirstAddressByKeysF fuel v keys = some (findFirstAddressByKeys v keys)
  ∧ findAllStringsByKeyF fuel v key = some (findAllStringsByKey v key) :=
  ⟨(ffs_fuel_agrees fuel).1 v keys h, (ffn_fuel_agrees fuel).1 v keys h,
   (ffa_fuel_agrees fuel).1 v keys h, (allStrs_fuel_agrees fuel).1 v key h⟩

/-- C7 witness: a nested mixed-shape value (null, numbers, strings, an
array, a wrapper object) evaluated with fuel equal to its size. -/
theorem extractors_total_witness :
    findFirstStringByKeysF 20
        (Json.jobj [("a", Json.jarr [Json.jnull, Json.jnum (some 3),
          Json.jobj [("name", Json.jstr "Cap")]]), ("price", Json.jnum (some 2))])
        ["name"]
      = some (findFirstStringByKeys
          (Json.jobj [("a", Json.jarr [Json.jnull, Json.jnum (some 3),
            Json.jobj [("name", Json.jstr "Cap")]]), ("price", Json.jnum (some 2))])
          ["name"])
  ∧ findFirstNumberLikeF 20
        (Json.jobj [("a", Json.jarr [Json.jnull, Json.jnum (some 3),
          Json.jobj [("name", Json.jstr "Cap")]]), ("price", Json.jnum (some 2))])
        ["name"]
      = some (findFirstNumberLike
          (Json.jobj [("a", Json.jarr [Json.jnull, Json.jnum (some 3),
            Json.jobj [("name", Json.jstr "Cap")]]), ("price", Json.jnum (some 2))])
          ["name"])
  ∧ findFirstAddressByKeysF 20
        (Json.jobj [("a", Json.jarr [Json.jnull, Json.jnum (some 3),
          Json.jobj [("name", Json.jstr "Cap")]]), ("price", Json.jnum (some 2))])
        ["name"]
      = some (findFirstAddressByKeys
          (Json.jobj [("a", Json.jarr [Json.jnull, Json.jnum (some 3),
            Json.jobj [("name", Json.jstr "Cap")]]), ("price", Json.jnum (some 2))])
          ["name"])
  ∧ findAllStringsByKeyF 20
        (Json.jobj [("a", Json.jarr [Json.jnull, Json.jnum (some 3),
          Json.jobj [("name", Json.jstr "Cap")]]), ("price", Json.jnum (some 2))])
        "name"
      = some (findAllStringsByKey
          (Json.jobj [("a", Json.jarr [Json.jnull, Json.jnum (some 3),
            Json.jobj [("name", Json.jstr "Cap")]]), ("price", Json.jnum (some 2))])
          "name") :=
  extractors_total 20
    (Json.jobj [("a", Json.jarr [Json.jnull, Json.jnum (some 3),
      Json.jobj [("name", Json.jstr "Cap")]]), ("price", Json.jnum (some 2))])
    ["name"] "name" (by decide)

/-- C10: for every request body shape, the Filters record produced by
`normalizeFilters` (what the PUT /api/filters route stores) has its tab in
the fixed vocabulary, non-negative finite bounds (non-numeric inputs fall
back to the defaults 0 and 5000, negatives are clamped to 0 by the
`Math.max`), and at most 500 models, each a non-empty trimmed string. -/
theorem normalizeFilters_invariants (input : Option Json) :
    ((normalizeFilters input).tab = Tab.listing
      ∨ (normalizeFilters input).tab = Tab.sale
      ∨ (normalizeFilters input).tab = Tab.rent)
  ∧ (∃ q, (normalizeFilters input).minTon = some q ∧ 0 ≤ q)
  ∧ (∃ q, (normalizeFilters input).maxTon = some q ∧ 0 ≤ q)
  ∧ (normalizeFilters input).models.length ≤ 500
  ∧ (∀ m ∈ (normalizeFilters input).models,
      m ≠ "" ∧ ∃ x, m = strTrim (jsToString x)) := by
  refine ⟨?_, ?_, ?_, ?_, ?_⟩
  · cases h : (normalizeFilters input).tab
    · exact Or.inl rfl
    · exact Or.inr (Or.inl rfl)
    · exact Or.inr (Or.inr rfl)
  · exact ⟨_, rfl, le_max_left 0 _⟩
  · exact ⟨_, rfl, le_max_left 0 _⟩
  · simp [normalizeFilters]
  · intro m hm
    simp only [normalizeFilters] at hm
    have hm' := List.mem_of_mem_take hm
    have hne : m ≠ "" := by
      have := List.of_mem_filter hm'
      simpa using this
    have hmem := List.mem_of_mem_filter hm'
    obtain ⟨x, _, hx⟩ := List.mem_map.mp hmem
    exact ⟨hne, x, hx.symm⟩

theorem find?_map_update_ne (c : ModelCache) (k : String) (v : ModelEntry)
    (k2 : String) (h : k2 ≠ k) :
    (c.map (fun e => if e.1 == k then (k, v) else e)).find? (fun e => e.1 == k2)
      = c.find? (fun e => e.1 == k2) := by
  induction c with
  | nil => rfl
  | cons e c' ih =>
    rw [List.map_cons]
    by_cases he : e.1 = k
    · have hb : (e.1 == k) = true := beq_iff_eq.mpr he
      have hk2 : ((k : String) == k2) = false := beq_eq_false_iff_ne.mpr fun hh => h hh.symm
      have he2 : (e.1 == k2) = false := by
        rw [he]
        exact hk2
      rw [if_pos hb]
      rw [List.find?_cons_of_neg _ (by simp [hk2]),
        List.find?_cons_of_neg _ (by simp [he2]), ih]
    · have hb : (e.1 == k) = false := beq_eq_false_iff_ne.mpr he
      rw [if_neg (by simp [hb])]
      by_cases he2 : e.1 = k2
      · have hb2 : (e.1 == k2) = true := beq_iff_eq.mpr he2
        rw [List.find?_cons_of_pos _ (by simp [hb2]), List.find?_cons_of_pos _ (by simp [hb2])]
      · have hb2 : (e.1 == k2) = false := beq_eq_false_iff_ne.mpr he2
        rw [List.find?_cons_of_neg _ (by simp [hb2]),
          List.find?_cons_of_neg _ (by simp [hb2]), ih]

theorem find?_map_update_self (c : ModelCache) (k : String) (v : ModelEntry)
    (hsome : (c.find? (fun e => e.1 == k)).isSome = true) :
    (c.map (fun e => if e.1 == k then (k, v) else e)).find? (fun e => e.1 == k)
      = some (k, v) := by
  induction c with
  | nil => simp at hsome
  | cons e c' ih =>
    rw [List.map_cons]
    by_cases he : e.1 = k
    · have hb : (e.1 == k) = true := beq_iff_eq.mpr he
      rw [if_pos hb]
      exact List.find?_cons_of_pos _ (by simp)
    · have hb : (e.1 == k) = false := beq_eq_false_iff_ne.mpr he
      have hsome' : (c'.find? (fun e => e.1 == k)).isSome = true := by
        rw [List.find?_cons_of_neg _ (by simp [hb])] at hsome
        exact hsome
      rw [if_neg (by simp [hb]), List.find?_cons_of_neg _ (by simp [hb]), ih hsome']

theorem cacheGet_cacheSet (c : ModelCache) (k : String) (v : ModelEntry)
    (k2 : String) :
    cacheGet (cacheSet c k v) k2 = if k2 = k then some v else cacheGet c k2 := by
  unfold cacheSet
  by_cases hs : (c.find? (fun e => e.1 == k)).isSome = true
  · rw [if_pos hs]
    by_cases hk : k2 = k
    · subst hk
      rw [if_pos rfl]
      unfold cacheGet
      rw [find?_map_update_self c k2 v hs]
      rfl
    · rw [if_neg hk]
      unfold cacheGet
      rw [find?_map_update_ne c k v k2 hk]
  · rw [if_neg hs]
    have hnone : c.find? (fun e => e.1 == k) = none := by
      cases hx : c.find? (fun e => e.1 == k) with
      | none => rfl
      | some e => rw [hx] at hs; simp at hs
    by_cases hk : k2 = k
    · subst hk
      simp [cacheGet, List.find?_append, hnone]
    · have hkb : ((k : String) == k2) = false := beq_eq_false_iff_ne.mpr fun hh => hk hh.symm
      simp only [cacheGet, List.find?_append, hk, if_neg, not_false_iff]
      have h2 : List.find? (fun e => e.1 == k2) [(k, v)] = none := by
        simp [List.find?_cons, hkb]
      rw [h2]
      cases hx : c.find? (fun e => e.1 == k2) <;> simp [Option.or]

theorem getModel_fst (fetchNft : String → Option Json) (now : ℕ) (mc : ModelCache)
    (a : String) :
    (getModelByNftAddressCached fetchNft now mc a).1
      = resolveModelPure fetchNft now mc a := by
  unfold getModelByNftAddressCached resolveModelPure modelOracle
  cases hc : cacheGet mc a with
  | none => simp
  | some e =>
    by_cases hf : now - e.atTime < NFT_MODEL_CACHE_TTL_MS <;> simp [hf]

theorem getModel_preserves (fetchNft : String → Option Json) (now : ℕ)
    (mc : ModelCache) (a a2 : String) :
    resolveModelPure fetchNft now (getModelByNftAddressCached fetchNft now mc a).2 a2
      = resolveModelPure fetchNft now mc a2 := by
  have hset : ∀ v : Option String,
      v = modelOracle fetchNft a →
      resolveModelPure fetchNft now (cacheSet mc a { atTime := now, model := v }) a2
        = resolveModelPure fetchNft now mc a2 ∨
      (resolveModelPure fetchNft now (cacheSet mc a { atTime := now, model := v }) a2
        = v ∧ a2 = a) := by
    intro v hv
    unfold resolveModelPure
    rw [cacheGet_cacheSet]
    by_cases ha : a2 = a
    · right
      subst ha
      rw [if_pos rfl]
      refine ⟨?_, rfl⟩
      simp [NFT_MODEL_CACHE_TTL_MS]
    · left
      rw [if_neg ha]
  unfold getModelByNftAddressCached
  cases hc : cacheGet mc a with
  | some e =>
    by_cases hf : now - e.atTime < NFT_MODEL_CACHE_TTL_MS
    · simp [hf]
    · simp only [hf, if_neg, not_false_iff]
      rcases hset ((extractFromNftItem (fetchNft a)).model) rfl with h | ⟨h1, h2⟩
      · exact h
      · subst h2
        rw [h1]
        unfold resolveModelPure modelOracle
        rw [hc]
        simp [hf]
  | none =>
    simp only []
    rcases hset ((extractFromNftItem (fetchNft a)).model) rfl with h | ⟨h1, h2⟩
    · exact h
    · subst h2
      rw [h1]
      unfold resolveModelPure modelOracle
      rw [hc]

theorem scanActionStep_spec (fetchNft : String → Option Json) (now : ℕ) (m : String)
    (act : Json) (mc : ModelCache) :
    (scanActionStep fetchNft now m act mc).1
        = actionSalePrice (resolveModelPure fetchNft now mc) m act
    ∧ ∀ a, resolveModelPure fetchNft now (scanActionStep fetchNft now m act mc).2 a
        = resolveModelPure fetchNft now mc a := by
  unfold scanActionStep actionSalePrice
  by_cases h1 : (jsTruthy act && jsTypeofObject act) = true
  case neg =>
    have h1f : (jsTruthy act && jsTypeofObject act) = false := by simpa using h1
    exact ⟨by simp [h1f], fun a => by simp [h1f]⟩
  case pos =>
    simp only [h1, Bool.not_true, Bool.false_eq_true, if_false]
    by_cases h2 : (strIncludes (strToLower ((getActionType act).getD "")) "purchase"
        || strIncludes (strToLower ((getActionType act).getD "")) "nftpurchase") = true
    case neg =>
      have h2f := eq_false_of_ne_true h2
      exact ⟨by simp [h2f], fun a => by simp [h2f]⟩
    case pos =>
      simp only [h2, Bool.not_true, Bool.false_eq_true, if_false]
      cases ha : findFirstAddressByKeys act nftAddressKeys with
      | none => exact ⟨rfl, fun a => rfl⟩
      | some nftAddress =>
        simp only []
        have hr := getModel_fst fetchNft now mc nftAddress
        cases hm : (getModelByNftAddressCached fetchNft now mc nftAddress).1 with
        | none =>
          rw [hm] at hr
          rw [← hr]
          refine ⟨rfl, fun a => ?_⟩
          exact getModel_preserves fetchNft now mc nftAddress a
        | some foundModel =>
          rw [hm] at hr
          rw [← hr]
          simp only []
          by_cases hfm : foundModel = ""
          case pos =>
            refine ⟨by simp [hfm], fun a => ?_⟩
            rw [if_pos hfm]
            exact getModel_preserves fetchNft now mc nftAddress a
          case neg =>
            by_cases hlow : strToLower foundModel ≠ strToLower m
            case pos =>
              refine ⟨by simp [hfm, hlow], fun a => ?_⟩
              rw [if_neg hfm, if_pos hlow]
              exact getModel_preserves fetchNft now mc nftAddress a
            case neg =>
              cases hn : findFirstNumberLike act saleAmountKeys with
              | none =>
                refine ⟨by simp [hfm, hlow, hn], fun a => ?_⟩
                rw [if_neg hfm, if_neg hlow]
                exact getModel_preserves fetchNft now mc nftAddress a
              | some rawAmount =>
                by_cases ht : 0 < toTonMaybe rawAmount
                case pos =>
                  refine ⟨by simp [hfm, hlow, hn, ht], fun a => ?_⟩
                  rw [if_neg hfm, if_neg hlow]
                  simp only []
                  rw [if_pos ht]
                  exact getModel_preserves fetchNft now mc nftAddress a
                case neg =>
                  refine ⟨by simp [hfm, hlow, hn, ht], fun a => ?_⟩
                  rw [if_neg hfm, if_neg hlow]
                  simp only []
                  rw [if_neg ht]
                  exact getModel_preserves fetchNft now mc nftAddress a

theorem actionSalePrice_congr (r1 r2 : String → Option String)
    (h : ∀ a, r1 a = r2 a) (m : String) (act : Json) :
    actionSalePrice r1 m act = actionSalePrice r2 m act := by
  unfold actionSalePrice
  simp only [h]

theorem scanActions_spec (fetchNft : String → Option Json) (now : ℕ) (m : String)
    (acts : List Json) : ∀ (mc : ModelCache) (prices : List ℚ),
    prices.length ≤ RECENT_SALES_MAX →
      (scanActions fetchNft now m acts mc prices).1
          = (prices ++ acts.filterMap
              (actionSalePrice (resolveModelPure fetchNft now mc) m)).take RECENT_SALES_MAX
      ∧ ∀ a, resolveModelPure fetchNft now (scanActions fetchNft now m acts mc prices).2 a
          = resolveModelPure fetchNft now mc a := by
  induction acts with
  | nil =>
    intro mc prices hlen
    exact ⟨by simp [scanActions, List.take_of_length_le hlen], fun a => rfl⟩
  | cons act rest ih =>
    intro mc prices hlen
    by_cases hfull : RECENT_SALES_MAX ≤ prices.length
    · have hlen3 : prices.length = RECENT_SALES_MAX := le_antisymm hlen hfull
      constructor
      · have htake : (prices ++ (act :: rest).filterMap
            (actionSalePrice (resolveModelPure fetchNft now mc) m)).take RECENT_SALES_MAX
            = prices := by
          rw [← hlen3]
          exact List.take_left prices _
        rw [htake]
        simp [scanActions, hfull]
      · intro a
        simp [scanActions, hfull]
    · obtain ⟨hstep1, hstep2⟩ := scanActionStep_spec fetchNft now m act mc
      have hcong : rest.filterMap
            (actionSalePrice
              (resolveModelPure fetchNft now (scanActionStep fetchNft now m act mc).2) m)
          = rest.filterMap (actionSalePrice (resolveModelPure fetchNft now mc) m) :=
        List.filterMap_congr (fun x _ => actionSalePrice_congr _ _ hstep2 m x)
      cases hq : (scanActionStep fetchNft now m act mc).1 with
      | none =>
        have hq' : actionSalePrice (resolveModelPure fetchNft now mc) m act = none := by
          rw [← hstep1, hq]
        have e1 : scanActions fetchNft now m (act :: rest) mc prices
            = scanActions fetchNft now m rest (scanActionStep fetchNft now m act mc).2
                prices := by
          conv_lhs => rw [scanActions]
          rw [if_neg hfull]
          simp only [hq]
        obtain ⟨ih1, ih2⟩ := ih (scanActionStep fetchNft now m act mc).2 prices hlen
        constructor
        · rw [e1, ih1, hcong]
          simp [List.filterMap_cons, hq']
        · intro a
          rw [e1, ih2 a, hstep2 a]
      | some ton =>
        have hq' : actionSalePrice (resolveModelPure fetchNft now mc) m act = some ton := by
          rw [← hstep1, hq]
        have h3 : RECENT_SALES_MAX = 3 := rfl
        have hlen' : (prices ++ [ton]).length ≤ RECENT_SALES_MAX := by
          rw [h3] at hfull ⊢
          simp only [List.length_append, List.length_cons, List.length_nil]
          omega
        have e1 : scanActions fetchNft now m (act :: rest) mc prices
            = scanActions fetchNft now m rest (scanActionStep fetchNft now m act mc).2
                (prices ++ [ton]) := by
          conv_lhs => rw [scanActions]
          rw [if_neg hfull]
          simp only [hq]
        obtain ⟨ih1, ih2⟩ := ih (scanActionStep fetchNft now m act mc).2
          (prices ++ [ton]) hlen'
        constructor
        · rw [e1, ih1, hcong]
          simp [List.filterMap_cons, hq', List.append_assoc]
        · intro a
          rw [e1, ih2 a, hstep2 a]

theorem take_append_take (l1 l2 : List ℚ) (n : ℕ) :
    (l1.take n ++ l2).take n = (l1 ++ l2).take n := by
  by_cases h : l1.length ≤ n
  · rw [List.take_of_length_le h]
  · have hlen : (l1.take n).length = n := by
      rw [List.length_take]
      omega
    rw [List.take_append_eq_append_take, List.take_append_eq_append_take, hlen,
      List.take_take, Nat.sub_self, min_self, List.take_zero,
      Nat.sub_eq_zero_of_le (le_of_not_le h), List.take_zero]

theorem eventSalePrices_congr (r1 r2 : String → Option String)
    (h : ∀ a, r1 a = r2 a) (m : String) (ev : Json) :
    eventSalePrices r1 m ev = eventSalePrices r2 m ev := by
  have hf : actionSalePrice r1 m = actionSalePrice r2 m :=
    funext (actionSalePrice_congr r1 r2 h m)
  unfold eventSalePrices
  rw [hf]

theorem scanEvents_spec (fetchNft : String → Option Json) (now : ℕ) (m : String)
    (evs : List Json) : ∀ (mc : ModelCache) (prices : List ℚ),
    prices.length ≤ RECENT_SALES_MAX →
      (scanEvents fetchNft now m evs mc prices).1
          = (prices ++ evs.flatMap
              (eventSalePrices (resolveModelPure fetchNft now mc) m)).take RECENT_SALES_MAX
      ∧ ∀ a, resolveModelPure fetchNft now (scanEvents fetchNft now m evs mc prices).2 a
          = resolveModelPure fetchNft now mc a := by
  induction evs with
  | nil =>
    intro mc prices hlen
    exact ⟨by simp [scanEvents, List.take_of_length_le hlen], fun a => rfl⟩
  | cons ev rest ih =>
    intro mc prices hlen
    by_cases hfull : RECENT_SALES_MAX ≤ prices.length
    · have hlen3 : prices.length = RECENT_SALES_MAX := le_antisymm hlen hfull
      constructor
      · have htake : (prices ++ (ev :: rest).flatMap
            (eventSalePrices (resolveModelPure fetchNft now mc) m)).take RECENT_SALES_MAX
            = prices := by
          rw [← hlen3]
          exact List.take_left prices _
        rw [htake]
        simp [scanEvents, hfull]
      · intro a
        simp [scanEvents, hfull]
    · by_cases hg : (jsTruthy ev && jsTypeofObject ev) = true
      case neg =>
        have hgf : (jsTruthy ev && jsTypeofObject ev) = false := by simpa using hg
        have hev : eventSalePrices (resolveModelPure fetchNft now mc) m ev = [] := by
          simp [eventSalePrices, hgf]
        have e1 : scanEvents fetchNft now m (ev :: rest) mc prices
            = scanEvents fetchNft now m rest mc prices := by
          conv_lhs => rw [scanEvents]
          simp [hfull, hgf]
        obtain ⟨ih1, ih2⟩ := ih mc prices hlen
        exact ⟨by rw [e1, ih1]; simp [hev], fun a => by rw [e1, ih2 a]⟩
      case pos =>
        cases hacts : jget ev "actions" with
        | some av =>
          cases av with
          | jarr acts =>
            obtain ⟨ha1, ha2⟩ := scanActions_spec fetchNft now m acts mc prices hlen
            have hev : eventSalePrices (resolveModelPure fetchNft now mc) m ev
                = acts.filterMap (actionSalePrice (resolveModelPure fetchNft now mc) m) := by
              simp [eventSalePrices, hg, hacts]
            have e1 : scanEvents fetchNft now m (ev :: rest) mc prices
                = scanEvents fetchNft now m rest
                    (scanActions fetchNft now m acts mc prices).2
                    (scanActions fetchNft now m acts mc prices).1 := by
              conv_lhs => rw [scanEvents]
              rw [if_neg hfull]
              simp [hg, hacts]
            have hlen' : (scanActions fetchNft now m acts mc prices).1.length
                ≤ RECENT_SALES_MAX := by
              rw [ha1]
              exact List.length_take_le _ _
            obtain ⟨ih1, ih2⟩ := ih (scanActions fetchNft now m acts mc prices).2
              (scanActions fetchNft now m acts mc prices).1 hlen'
            have hfun : resolveModelPure fetchNft now
                  (scanActions fetchNft now m acts mc prices).2
                = resolveModelPure fetchNft now mc := funext ha2
            constructor
            · rw [e1, ih1, hfun, ha1, List.flatMap_cons, hev, take_append_take,
                List.append_assoc]
            · intro a
              rw [e1, ih2 a, ha2 a]
          | jnull =>
            have hev : eventSalePrices (resolveModelPure fetchNft now mc) m ev = [] := by
              simp [eventSalePrices, hg, hacts]
            have e1 : scanEvents fetchNft now m (ev :: rest) mc prices
                = scanEvents fetchNft now m rest mc prices := by
              conv_lhs => rw [scanEvents]
              rw [if_neg hfull]
              simp [hg, hacts]
            obtain ⟨ih1, ih2⟩ := ih mc prices hlen
            exact ⟨by rw [e1, ih1]; simp [hev], fun a => by rw [e1, ih2 a]⟩
          | jbool b =>
            have hev : eventSalePrices (resolveModelPure fetchNft now mc) m ev = [] := by
              simp [eventSalePrices, hg, hacts]
            have e1 : scanEvents fetchNft now m (ev :: rest) mc prices
                = scanEvents fetchNft now m rest mc prices := by
              conv_lhs => rw [scanEvents]
              rw [if_neg hfull]
              simp [hg, hacts]
            obtain ⟨ih1, ih2⟩ := ih mc prices hlen
            exact ⟨by rw [e1, ih1]; simp [hev], fun a => by rw [e1, ih2 a]⟩
          | jnum x =>
            have hev : eventSalePrices (resolveModelPure fetchNft now mc) m ev = [] := by
              simp [eventSalePrices, hg, hacts]
            have e1 : scanEvents fetchNft now m (ev :: rest) mc prices
                = scanEvents fetchNft now m rest mc prices := by
              conv_lhs => rw [scanEvents]
              rw [if_neg hfull]
              simp [hg, hacts]
            obtain ⟨ih1, ih2⟩ := ih mc prices hlen
            exact ⟨by rw [e1, ih1]; simp [hev], fun a => by rw [e1, ih2 a]⟩
          | jstr s =>
            have hev : eventSalePrices (resolveModelPure fetchNft now mc) m ev = [] := by
              simp [eventSalePrices, hg, hacts]
            have e1 : scanEvents fetchNft now m (ev :: rest) mc prices
                = scanEvents fetchNft now m rest mc prices := by
              conv_lhs => rw [scanEvents]
              rw [if_neg hfull]
              simp [hg, hacts]
            obtain ⟨ih1, ih2⟩ := ih mc prices hlen
            exact ⟨by rw [e1, ih1]; simp [hev], fun a => by rw [e1, ih2 a]⟩
          | jobj fs =>
            have hev : eventSalePrices (resolveModelPure fetchNft now mc) m ev = [] := by
              simp [eventSalePrices, hg, hacts]
            have e1 : scanEvents fetchNft now m (ev :: rest) mc prices
                = scanEvents fetchNft now m rest mc prices := by
              conv_lhs => rw [scanEvents]
              rw [if_neg hfull]
              simp [hg, hacts]
            obtain ⟨ih1, ih2⟩ := ih mc prices hlen
            exact ⟨by rw [e1, ih1]; simp [hev], fun a => by rw [e1, ih2 a]⟩
        | none =>
          have hev : eventSalePrices (resolveModelPure fetchNft now mc) m ev = [] := by
            simp [eventSalePrices, hg, hacts]
          have e1 : scanEvents fetchNft now m (ev :: rest) mc prices
              = scanEvents fetchNft now m rest mc prices := by
            conv_lhs => rw [scanEvents]
            rw [if_neg hfull]
            simp [hg, hacts]
          obtain ⟨ih1, ih2⟩ := ih mc prices hlen
          exact ⟨by rw [e1, ih1]; simp [hev], fun a => by rw [e1, ih2 a]⟩

theorem marketSalePrices_congr (fetchEvents : String → Option Json)
    (r1 r2 : String → Option String) (h : ∀ a, r1 a = r2 a) (m acct : String) :
    marketSalePrices fetchEvents r1 m acct = marketSalePrices fetchEvents r2 m acct := by
  have hf : eventSalePrices r1 m = eventSalePrices r2 m :=
    funext (eventSalePrices_congr r1 r2 h m)
  unfold marketSalePrices
  rw [hf]

theorem scanMarkets_spec (fetchNft fetchEvents : String → Option Json) (now : ℕ)
    (m : String) (accounts : List String) : ∀ (mc : ModelCache) (prices : List ℚ),
    prices.length ≤ RECENT_SALES_MAX →
      (scanMarkets fetchNft fetchEvents now m accounts mc prices).1
          = (prices ++ accounts.flatMap
              (marketSalePrices fetchEvents (resolveModelPure fetchNft now mc) m)
            ).take RECENT_SALES_MAX
      ∧ ∀ a, resolveModelPure fetchNft now
            (scanMarkets fetchNft fetchEvents now m accounts mc prices).2 a
          = resolveModelPure fetchNft now mc a := by
  induction accounts with
  | nil =>
    intro mc prices hlen
    exact ⟨by simp [scanMarkets, List.take_of_length_le hlen], fun a => rfl⟩
  | cons acct rest ih =>
    intro mc prices hlen
    by_cases hfull : RECENT_SALES_MAX ≤ prices.length
    · have hlen3 : prices.length = RECENT_SALES_MAX := le_antisymm hlen hfull
      constructor
      · have htake : (prices ++ (acct :: rest).flatMap
            (marketSalePrices fetchEvents (resolveModelPure fetchNft now mc) m)
          ).take RECENT_SALES_MAX = prices := by
          rw [← hlen3]
          exact List.take_left prices _
        rw [htake]
        simp [scanMarkets, hfull]
      · intro a
        simp [scanMarkets, hfull]
    · cases hfe : fetchEvents acct with
      | none =>
        have hmkt : marketSalePrices fetchEvents (resolveModelPure fetchNft now mc) m acct
            = [] := by
          simp [marketSalePrices, hfe]
        have e1 : scanMarkets fetchNft fetchEvents now m (acct :: rest) mc prices
            = scanMarkets fetchNft fetchEvents now m rest mc prices := by
          conv_lhs => rw [scanMarkets]
          rw [if_neg hfull]
          simp [hfe]
        obtain ⟨ih1, ih2⟩ := ih mc prices hlen
        exact ⟨by rw [e1, ih1]; simp [hmkt], fun a => by rw [e1, ih2 a]⟩
      | some ev =>
        by_cases hg : (jsTruthy ev && jsTypeofObject ev) = true
        case neg =>
          have hgf : (jsTruthy ev && jsTypeofObject ev) = false := by simpa using hg
          have hmkt : marketSalePrices fetchEvents (resolveModelPure fetchNft now mc) m acct
              = [] := by
            simp [marketSalePrices, hfe, hgf]
          have e1 : scanMarkets fetchNft fetchEvents now m (acct :: rest) mc prices
              = scanMarkets fetchNft fetchEvents now m rest mc prices := by
            conv_lhs => rw [scanMarkets]
            rw [if_neg hfull]
            simp [hfe, hgf]
          obtain ⟨ih1, ih2⟩ := ih mc prices hlen
          exact ⟨by rw [e1, ih1]; simp [hmkt], fun a => by rw [e1, ih2 a]⟩
        case pos =>
          cases hevs : jget ev "events" with
          | some av =>
            cases av with
            | jarr evs =>
              obtain ⟨ha1, ha2⟩ := scanEvents_spec fetchNft now m evs mc prices hlen
              have hmkt : marketSalePrices fetchEvents (resolveModelPure fetchNft now mc)
                    m acct
                  = evs.flatMap (eventSalePrices (resolveModelPure fetchNft now mc) m) := by
                simp [marketSalePrices, hfe, hg, hevs]
              have e1 : scanMarkets fetchNft fetchEvents now m (acct :: rest) mc prices
                  = scanMarkets fetchNft fetchEvents now m rest
                      (scanEvents fetchNft now m evs mc prices).2
                      (scanEvents fetchNft now m evs mc prices).1 := by
                conv_lhs => rw [scanMarkets]
                rw [if_neg hfull]
                simp [hfe, hg, hevs]
              have hlen2 : (scanEvents fetchNft now m evs mc prices).1.length
                  ≤ RECENT_SALES_MAX := by
                rw [ha1]
                exact List.length_take_le _ _
              obtain ⟨ih1, ih2⟩ := ih (scanEvents fetchNft now m evs mc prices).2
                (scanEvents fetchNft now m evs mc prices).1 hlen2
              have hfun : ∀ acct2, marketSalePrices fetchEvents
                    (resolveModelPure fetchNft now
                      (scanEvents fetchNft now m evs mc prices).2) m acct2
                  = marketSalePrices fetchEvents
                      (resolveModelPure fetchNft now mc) m acct2 :=
                fun acct2 => marketSalePrices_congr fetchEvents _ _ ha2 m acct2
              constructor
              · rw [e1, ih1, List.flatMap_congr (fun x _ => hfun x), ha1,
                  List.flatMap_cons, hmkt, take_append_take, List.append_assoc]
              · intro a
                rw [e1, ih2 a, ha2 a]
            | jnull =>
              have hmkt : marketSalePrices fetchEvents (resolveModelPure fetchNft now mc) m acct
                  = [] := by
                simp [marketSalePrices, hfe, hg, hevs]
              have e1 : scanMarkets fetchNft fetchEvents now m (acct :: rest) mc prices
                  = scanMarkets fetchNft fetchEvents now m rest mc prices := by
                conv_lhs => rw [scanMarkets]
                rw [if_neg hfull]
                simp [hfe, hg, hevs]
              obtain ⟨ih1, ih2⟩ := ih mc prices hlen
              exact ⟨by rw [e1, ih1]; simp [hmkt], fun a => by rw [e1, ih2 a]⟩
            | jbool b =>
              have hmkt : marketSalePrices fetchEvents (resolveModelPure fetchNft now mc) m acct
                  = [] := by
                simp [marketSalePrices, hfe, hg, hevs]
              have e1 : scanMarkets fetchNft fetchEvents now m (acct :: rest) mc prices
                  = scanMarkets fetchNft fetchEvents now m rest mc prices := by
                conv_lhs => rw [scanMarkets]
                rw [if_neg hfull]
                simp [hfe, hg, hevs]
              obtain ⟨ih1, ih2⟩ := ih mc prices hlen
              exact ⟨by rw [e1, ih1]; simp [hmkt], fun a => by rw [e1, ih2 a]⟩
            | jnum x =>
              have hmkt : marketSalePrices fetchEvents (resolveModelPure fetchNft now mc) m acct
                  = [] := by
                simp [marketSalePrices, hfe, hg, hevs]
              have e1 : scanMarkets fetchNft fetchEvents now m (acct :: rest) mc prices
                  = scanMarkets fetchNft fetchEvents now m rest mc prices := by
                conv_lhs => rw [scanMarkets]
                rw [if_neg hfull]
                simp [hfe, hg, hevs]
              obtain ⟨ih1, ih2⟩ := ih mc prices hlen
              exact ⟨by rw [e1, ih1]; simp [hmkt], fun a => by rw [e1, ih2 a]⟩
            | jstr s =>
              have hmkt : marketSalePrices fetchEvents (resolveModelPure fetchNft now mc) m acct
                  = [] := by
                simp [marketSalePrices, hfe, hg, hevs]
              have e1 : scanMarkets fetchNft fetchEvents now m (acct :: rest) mc prices
                  = scanMarkets fetchNft fetchEvents now m rest mc prices := by
                conv_lhs => rw [scanMarkets]
                rw [if_neg hfull]
                simp [hfe, hg, hevs]
              obtain ⟨ih1, ih2⟩ := ih mc prices hlen
              exact ⟨by rw [e1, ih1]; simp [hmkt], fun a => by rw [e1, ih2 a]⟩
            | jobj fs =>
              have hmkt : marketSalePrices fetchEvents (resolveModelPure fetchNft now mc) m acct
                  = [] := by
                simp [marketSalePrices, hfe, hg, hevs]
              have e1 : scanMarkets fetchNft fetchEvents now m (acct :: rest) mc prices
                  = scanMarkets fetchNft fetchEvents now m rest mc prices := by
                conv_lhs => rw [scanMarkets]
                rw [if_neg hfull]
                simp [hfe, hg, hevs]
              obtain ⟨ih1, ih2⟩ := ih mc prices hlen
              exact ⟨by rw [e1, ih1]; simp [hmkt], fun a => by rw [e1, ih2 a]⟩
          | none =>
            have hmkt : marketSalePrices fetchEvents (resolveModelPure fetchNft now mc) m acct
                = [] := by
              simp [marketSalePrices, hfe, hg, hevs]
            have e1 : scanMarkets fetchNft fetchEvents now m (acct :: rest) mc prices
                = scanMarkets fetchNft fetchEvents now m rest mc prices := by
              conv_lhs => rw [scanMarkets]
              rw [if_neg hfull]
              simp [hfe, hg, hevs]
            obtain ⟨ih1, ih2⟩ := ih mc prices hlen
            exact ⟨by rw [e1, ih1]; simp [hmkt], fun a => by rw [e1, ih2 a]⟩

/-- C8: on the fetch-and-scan path (non-empty trimmed model, no fresh
recent-sales cache entry), `getRecentSalesForModel` returns exactly the
first `RECENT_SALES_MAX` (3) qualifying sale prices in
market-then-event-then-action iteration order — `null` when there are
none — and never more than 3; a price qualifies when the action type
contains "purchase" case-insensitively, the traded asset's model resolves
case-insensitively to the requested model, and the extracted amount is
positive. -/
theorem getRecentSalesForModel_spec (fetchNft fetchEvents : String → Option Json)
    (marketAccounts : List String) (now : ℕ) (rsCache : SalesCache)
    (mCache : ModelCache) (model : String)
    (hm : strTrim model ≠ "")
    (hmiss : ∀ e, salesCacheGet rsCache (strToLower (strTrim model)) = some e →
      ¬(now - e.atTime < RECENT_SALES_CACHE_TTL_MS)) :
    ((getRecentSalesForModel fetchNft fetchEvents marketAccounts now rsCache mCache
        model).1
      = (if (qualifyingSalePrices fetchNft fetchEvents marketAccounts now mCache
              (strTrim model)).take RECENT_SALES_MAX = []
         then none
         else some ((qualifyingSalePrices fetchNft fetchEvents marketAccounts now mCache
              (strTrim model)).take RECENT_SALES_MAX)))
    ∧ ∀ l, (getRecentSalesForModel fetchNft fetchEvents marketAccounts now rsCache
          mCache model).1 = some l → l.length ≤ RECENT_SALES_MAX := by
  have e0 : getRecentSalesForModel fetchNft fetchEvents marketAccounts now rsCache
        mCache model
      = recentSalesScan fetchNft fetchEvents marketAccounts now rsCache mCache
          (strTrim model) := by
    simp only [getRecentSalesForModel]
    rw [if_neg hm]
    cases hc : salesCacheGet rsCache (strToLower (strTrim model)) with
    | none => rfl
    | some e => simp [hmiss e hc]
  obtain ⟨hs1, _⟩ := scanMarkets_spec fetchNft fetchEvents now (strTrim model)
    marketAccounts mCache [] (by simp)
  have hout : (scanMarkets fetchNft fetchEvents now (strTrim model) marketAccounts
        mCache []).1.take RECENT_SALES_MAX
      = (qualifyingSalePrices fetchNft fetchEvents marketAccounts now mCache
          (strTrim model)).take RECENT_SALES_MAX := by
    rw [hs1]
    simp [qualifyingSalePrices, List.take_take]
  have hopt : ∀ l : List ℚ,
      (if 0 < l.length then some l else none) = (if l = [] then none else some l) := by
    intro l
    cases l <;> simp
  have c1 : (getRecentSalesForModel fetchNft fetchEvents marketAccounts now rsCache
        mCache model).1
      = (if (qualifyingSalePrices fetchNft fetchEvents marketAccounts now mCache
              (strTrim model)).take RECENT_SALES_MAX = []
         then none
         else some ((qualifyingSalePrices fetchNft fetchEvents marketAccounts now mCache
              (strTrim model)).take RECENT_SALES_MAX)) := by
    rw [e0]
    simp only [recentSalesScan]
    rw [hout, hopt]
  refine ⟨c1, ?_⟩
  intro l hl
  rw [c1] at hl
  by_cases hq : (qualifyingSalePrices fetchNft fetchEvents marketAccounts now mCache
      (strTrim model)).take RECENT_SALES_MAX = []
  · rw [if_pos hq] at hl
    exact absurd hl (by simp)
  · rw [if_neg hq] at hl
    have hle := Option.some_inj.mp hl
    rw [← hle]
    exact List.length_take_le _ _

/-- C8 witness: one market whose activity response holds one event with
five qualifying purchase actions (prices 5..9), every asset resolving to
model "Cap": the spec instance at this concrete input. -/
theorem getRecentSalesForModel_spec_witness :
    ((getRecentSalesForModel (fun _ => some (Json.jobj [("metadata", Json.jobj [("name", Json.jstr "Cap")])]))
      (fun a => if a = "mkt" then some (Json.jobj [("events", Json.jarr [(Json.jobj [("actions", Json.jarr [(Json.jobj [("type", Json.jstr "NftPurchase"), ("nft_address", Json.jstr "EQ1"), ("amount", Json.jnum (some (5 : ℚ)))]), (Json.jobj [("type", Json.jstr "NftPurchase"), ("nft_address", Json.jstr "EQ1"), ("amount", Json.jnum (some (6 : ℚ)))]), (Json.jobj [("type", Json.jstr "NftPurchase"), ("nft_address", Json.jstr "EQ1"), ("amount", Json.jnum (some (7 : ℚ)))]), (Json.jobj [("type", Json.jstr "NftPurchase"), ("nft_address", Json.jstr "EQ1"), ("amount", Json.jnum (some (8 : ℚ)))]), (Json.jobj [("type", Json.jstr "NftPurchase"), ("nft_address", Json.jstr "EQ1"), ("amount", Json.jnum (some (9 : ℚ)))])])])])]) else none)
      ["mkt"] 0 [] []
      "Cap").1
      = (if (qualifyingSalePrices (fun _ => some (Json.jobj [("metadata", Json.jobj [("name", Json.jstr "Cap")])]))
      (fun a => if a = "mkt" then some (Json.jobj [("events", Json.jarr [(Json.jobj [("actions", Json.jarr [(Json.jobj [("type", Json.jstr "NftPurchase"), ("nft_address", Json.jstr "EQ1"), ("amount", Json.jnum (some (5 : ℚ)))]), (Json.jobj [("type", Json.jstr "NftPurchase"), ("nft_address", Json.jstr "EQ1"), ("amount", Json.jnum (some (6 : ℚ)))]), (Json.jobj [("type", Json.jstr "NftPurchase"), ("nft_address", Json.jstr "EQ1"), ("amount", Json.jnum (some (7 : ℚ)))]), (Json.jobj [("type", Json.jstr "NftPurchase"), ("nft_address", Json.jstr "EQ1"), ("amount", Json.jnum (some (8 : ℚ)))]), (Json.jobj [("type", Json.jstr "NftPurchase"), ("nft_address", Json.jstr "EQ1"), ("amount", Json.jnum (some (9 : ℚ)))])])])])]) else none)
      ["mkt"] 0 []
              (strTrim "Cap")).take RECENT_SALES_MAX = []
         then none
         else some ((qualifyingSalePrices (fun _ => some (Json.jobj [("metadata", Json.jobj [("name", Json.jstr "Cap")])]))
      (fun a => if a = "mkt" then some (Json.jobj [("events", Json.jarr [(Json.jobj [("actions", Json.jarr [(Json.jobj [("type", Json.jstr "NftPurchase"), ("nft_address", Json.jstr "EQ1"), ("amount", Json.jnum (some (5 : ℚ)))]), (Json.jobj [("type", Json.jstr "NftPurchase"), ("nft_address", Json.jstr "EQ1"), ("amount", Json.jnum (some (6 : ℚ)))]), (Json.jobj [("type", Json.jstr "NftPurchase"), ("nft_address", Json.jstr "EQ1"), ("amount", Json.jnum (some (7 : ℚ)))]), (Json.jobj [("type", Json.jstr "NftPurchase"), ("nft_address", Json.jstr "EQ1"), ("amount", Json.jnum (some (8 : ℚ)))]), (Json.jobj [("type", Json.jstr "NftPurchase"), ("nft_address", Json.jstr "EQ1"), ("amount", Json.jnum (some (9 : ℚ)))])])])])]) else none)
      ["mkt"] 0 []
              (strTrim "Cap")).take RECENT_SALES_MAX)))
    ∧ ∀ l, (getRecentSalesForModel (fun _ => some (Json.jobj [("metadata", Json.jobj [("name", Json.jstr "Cap")])]))
      (fun a => if a = "mkt" then some (Json.jobj [("events", Json.jarr [(Json.jobj [("actions", Json.jarr [(Json.jobj [("type", Json.jstr "NftPurchase"), ("nft_address", Json.jstr "EQ1"), ("amount", Json.jnum (some (5 : ℚ)))]), (Json.jobj [("type", Json.jstr "NftPurchase"), ("nft_address", Json.jstr "EQ1"), ("amount", Json.jnum (some (6 : ℚ)))]), (Json.jobj [("type", Json.jstr "NftPurchase"), ("nft_address", Json.jstr "EQ1"), ("amount", Json.jnum (some (7 : ℚ)))]), (Json.jobj [("type", Json.jstr "NftPurchase"), ("nft_address", Json.jstr "EQ1"), ("amount", Json.jnum (some (8 : ℚ)))]), (Json.jobj [("type", Json.jstr "NftPurchase"), ("nft_address", Json.jstr "EQ1"), ("amount", Json.jnum (some (9 : ℚ)))])])])])]) else none)
      ["mkt"] 0 [] []
      "Cap").1 = some l → l.length ≤ RECENT_SALES_MAX :=
  getRecentSalesForModel_spec (fun _ => some (Json.jobj [("metadata", Json.jobj [("name", Json.jstr "Cap")])]))
      (fun a => if a = "mkt" then some (Json.jobj [("events", Json.jarr [(Json.jobj [("actions", Json.jarr [(Json.jobj [("type", Json.jstr "NftPurchase"), ("nft_address", Json.jstr "EQ1"), ("amount", Json.jnum (some (5 : ℚ)))]), (Json.jobj [("type", Json.jstr "NftPurchase"), ("nft_address", Json.jstr "EQ1"), ("amount", Json.jnum (some (6 : ℚ)))]), (Json.jobj [("type", Json.jstr "NftPurchase"), ("nft_address", Json.jstr "EQ1"), ("amount", Json.jnum (some (7 : ℚ)))]), (Json.jobj [("type", Json.jstr "NftPurchase"), ("nft_address", Json.jstr "EQ1"), ("amount", Json.jnum (some (8 : ℚ)))]), (Json.jobj [("type", Json.jstr "NftPurchase"), ("nft_address", Json.jstr "EQ1"), ("amount", Json.jnum (some (9 : ℚ)))])])])])]) else none)
      ["mkt"] 0 [] []
      "Cap"
    (by decide)
    (by intro e he; simp [salesCacheGet] at he)
